import Mathlib

/-!
# Verification of the `ucs` UC-file processing tool

A shallow embedding of the core record classification, normalization,
deduplication, multi-target aggregation and summary pipeline of `ucs.go`
(the `vmikk/ucs` repository), together with theorems settling the frozen
claims about that code.

Strings are modelled as `List Char`.  Go maps (`map[string]struct{}` and
`map[string]map[string]struct{}`) are modelled as insertion-ordered lists
without duplicates; Go's map iteration order is unspecified, the list
order is one admissible determinization, and all theorems below are
stated order-insensitively (membership and multiplicity).  Go `float64`
values are not modelled; the `Identity` field keeps the raw accepted text
of field 3, which preserves exactly the present/absent distinction the
source's `*float64` field exposes.  File and stream I/O, gzip detection
and Parquet serialization are out of scope (external collaborators in the
design); the embedding covers the per-line processing over an in-memory
list of input lines.
-/

/-- Command options of `ucs` (struct `Options` in ucs.go); the two file
path fields are I/O plumbing and are not part of the embedded core. -/
structure Options where
  summary : Bool
  mapOnly : Bool
  splitSeqID : Bool
  removeDups : Bool
  multiMapped : Bool
deriving DecidableEq

/-- The flag defaults registered in `parseFlags` (ucs.go): `map-only`,
`split-id` and `rm-dups` default to true, `summary` and `multi-mapped`
to false. -/
def defaultOptions : Options :=
  { summary := false, mapOnly := true, splitSeqID := true,
    removeDups := true, multiMapped := false }

/-- `strings.Split(line, "\t")`: split at every tab, keeping empty
fields; the result is never the empty list. -/
def splitTab : List Char → List (List Char)
  | [] => [[]]
  | c :: rest =>
    if c = '\t' then
      [] :: splitTab rest
    else
      match splitTab rest with
      | [] => [[c]]
      | f :: fs => (c :: f) :: fs

/-- `splitSeqID` (ucs.go): when splitting is enabled, keep the prefix of
the identifier before the first `;` (`strings.SplitN(id, ";", 2)[0]`);
otherwise the identity function. -/
def splitSeqID (id : List Char) (split : Bool) : List Char :=
  if split then id.takeWhile (fun c => c ≠ ';') else id

/-- Model of `strconv.ParseUint(s, 10, 32)`: succeeds exactly on a
nonempty all-digit string (no sign) whose value fits in 32 bits. -/
def goParseUint32 (s : List Char) : Option Nat :=
  if s = [] then none
  else if s.all (fun c => c.isDigit) then
    let v := s.foldl (fun acc c => acc * 10 + (c.toNat - 48)) 0
    if v < 4294967296 then some v else none
  else none

/-- Strip one optional leading sign, returning how many characters were
consumed and the rest (`readFloat` and `special` in strconv/atof.go). -/
def splitSign (s : List Char) : Nat × List Char :=
  match s with
  | '+' :: r => (1, r)
  | '-' :: r => (0 + 1, r)
  | r => (0, r)

/-- Lowercase hexadecimal digit letter (`a`–`f`, case-insensitive). -/
def isHexLetter (c : Char) : Bool :=
  decide ('a' ≤ c.toLower) && decide (c.toLower ≤ 'f')

/-- Mantissa digit of `readFloat`: `0`–`9`, plus `a`–`f` in hex mode. -/
def isMantDigit (hexb : Bool) (c : Char) : Bool :=
  c.isDigit || (hexb && isHexLetter c)

/-- The mantissa loop of Go's `readFloat`: consume digits, underscores
and at most one dot, stopping at the first other character (a second
dot also stops).  Returns the number of characters consumed and whether
any digit was seen. -/
def scanMant (hexb : Bool) : List Char → Bool → Nat × Bool
  | [], _ => (0, false)
  | c :: rest, sawdot =>
    if c = '_' then
      let (n, d) := scanMant hexb rest sawdot
      (n + 1, d)
    else if c = '.' then
      if sawdot then (0, false)
      else
        let (n, d) := scanMant hexb rest true
        (n + 1, d)
    else if isMantDigit hexb c then
      let (n, _) := scanMant hexb rest sawdot
      (n + 1, true)
    else (0, false)

/-- Length of a leading run of decimal digits and underscores (the
exponent-digit loop of `readFloat`). -/
def scanDigitsU (s : List Char) : Nat :=
  (s.takeWhile (fun c => c.isDigit || c = '_')).length

/-- The exponent phase of Go's `readFloat`: `none` when an exponent
character starts a malformed exponent (which fails the whole parse),
`some none` when no exponent is present, `some (some n)` when a
well-formed exponent of `n` characters (marker, optional sign, a digit,
then digits or underscores) is consumed. -/
def scanExp (ec : Char) (s : List Char) : Option (Option Nat) :=
  match s with
  | [] => some none
  | c :: rest =>
    if c.toLower = ec then
      match rest with
      | '+' :: r =>
        match r with
        | [] => none
        | d :: _ => if d.isDigit then some (some (2 + scanDigitsU r)) else none
      | '-' :: r =>
        match r with
        | [] => none
        | d :: _ => if d.isDigit then some (some (2 + scanDigitsU r)) else none
      | r =>
        match r with
        | [] => none
        | d :: _ => if d.isDigit then some (some (1 + scanDigitsU r)) else none
    else some none

/-- The scanning loop of Go's `underscoreOK`: `saw` is the class of the
previous character (`^` start, `0` digit or base prefix, `_`
underscore, `!` other); an underscore must follow and be followed by a
digit (or the base prefix). -/
def uscanOK (hexd : Bool) : List Char → Char → Bool
  | [], saw => !(saw = '_')
  | c :: rest, saw =>
    if isMantDigit hexd c then uscanOK hexd rest '0'
    else if c = '_' then
      if saw = '0' then uscanOK hexd rest '_' else false
    else if saw = '_' then false
    else uscanOK hexd rest '!'

/-- Go's `strconv.underscoreOK`: after an optional sign and optional
`0b`/`0o`/`0x` base prefix, every underscore sits between digits (the
base prefix counting as a digit). -/
def underscoreOK (s : List Char) : Bool :=
  let s1 := (splitSign s).2
  match s1 with
  | '0' :: c :: rest =>
    if c.toLower = 'b' ∨ c.toLower = 'o' ∨ c.toLower = 'x' then
      uscanOK (c.toLower = 'x') rest '0'
    else uscanOK false s1 '^'
  | _ => uscanOK false s1 '^'

/-- Integer value of a consumed mantissa segment, ignoring the dot and
underscores (digits are accumulated in the given base). -/
def mantissaDigitsVal (base : Nat) (s : List Char) : Nat :=
  s.foldl
    (fun acc c =>
      if c.isDigit then acc * base + (c.toNat - 48)
      else if isHexLetter c then acc * base + (c.toLower.toNat - 87)
      else acc) 0

/-- Number of mantissa digits after the dot in a consumed mantissa
segment (underscores do not count). -/
def fracDigitCount (hexb : Bool) (s : List Char) : Nat :=
  ((s.dropWhile (fun c => c ≠ '.')).filter (fun c => isMantDigit hexb c)).length

/-- Decimal value of an exponent digit run, ignoring underscores. -/
def expDigitsVal (s : List Char) : Nat :=
  s.foldl (fun acc c => if c.isDigit then acc * 10 + (c.toNat - 48) else acc) 0

/-- Signed value of a consumed exponent segment (marker character,
optional sign, digits and underscores). -/
def expVal (expSeg : List Char) : Int :=
  match expSeg with
  | [] => 0
  | _ :: rest =>
    match rest with
    | '-' :: r => -(expDigitsVal r : Int)
    | '+' :: r => (expDigitsVal r : Int)
    | r => (expDigitsVal r : Int)

/-- Whether the exact value written by a syntactically valid mantissa
and exponent overflows `float64`: `strconv.ParseFloat(s, 64)` reports
`ErrRange` exactly when the magnitude is at least
`(2^54 - 1) * 2^970` (half an ulp above the largest finite double, a
tie that rounds up to infinity); underflow to zero is not an error.
The decimal value is `N * 10^(E - f)`, the hexadecimal value
`N * 2^(E - 4*f)`, for mantissa integer `N` with `f` fraction digits
and exponent `E`. -/
def float64Overflow (hexb : Bool) (mant expSeg : List Char) : Bool :=
  let base := if hexb then 16 else 10
  let N := mantissaDigitsVal base mant
  let f := fracDigitCount hexb mant
  let E := expVal expSeg
  let B := (2 ^ 54 - 1) * 2 ^ 970
  let pbase := if hexb then 2 else 10
  let sh : Int := if hexb then E - 4 * (f : Int) else E - (f : Int)
  if 0 ≤ sh then decide (B ≤ N * pbase ^ sh.toNat)
  else decide (B * pbase ^ ((-sh).toNat) ≤ N)

/-- Acceptance of a non-special number by `strconv.ParseFloat(s, 64)`,
modelling `readFloat` (optional sign, optional `0x` prefix when at
least one character follows it, mantissa with at most one dot and at
least one digit, optional `e`/`E` exponent — mandatory `p`/`P` exponent
for hex), `ParseFloat`'s requirement that the whole string is consumed,
the `underscoreOK` placement check, and the overflow range error. -/
def goReadFloatNumOk (s : List Char) : Bool :=
  let (nsign, s1) := splitSign s
  let hexb : Bool :=
    match s1 with
    | '0' :: c :: _ :: _ => c.toLower = 'x'
    | _ => false
  let s2 := if hexb then s1.drop 2 else s1
  let (nm, sawdig) := scanMant hexb s2 false
  if !sawdig then false
  else
    let s3 := s2.drop nm
    let mantSeg := s2.take nm
    match scanExp (if hexb then 'p' else 'e') s3 with
    | none => false
    | some none =>
      !hexb && decide (nsign + nm = s.length) && underscoreOK s &&
        !float64Overflow hexb mantSeg []
    | some (some ne) =>
      decide (nsign + (if hexb then 2 else 0) + nm + ne = s.length) &&
        underscoreOK s && !float64Overflow hexb mantSeg (s3.take ne)

/-- Case-insensitive comparison against a lowercase word. -/
def lowerIs (a b : List Char) : Bool := a.map Char.toLower = b

/-- Model of `err == nil` for `strconv.ParseFloat(s, 64)`: a special
word — optionally signed `inf`/`infinity` or unsigned `nan`, all
case-insensitive, per `special` in strconv/atof.go — or a number
accepted by `goReadFloatNumOk`.  Exact-real arithmetic decides the
range check, matching Go up to its 800-digit decimal truncation. -/
def goParseFloatOk (s : List Char) : Bool :=
  let t := (splitSign s).2
  lowerIs t ['i', 'n', 'f'] || lowerIs t ['i', 'n', 'f', 'i', 'n', 'i', 't', 'y'] ||
    lowerIs s ['n', 'a', 'n'] || goReadFloatNumOk s

/-- The `identity` field of a decoded record: absent for a literal `*`
or a value `strconv.ParseFloat` rejects (syntax error or overflow),
otherwise the accepted raw text of field 3 (the numeric value itself
plays no role in any claim). -/
def parseIdentity (f3 : List Char) : Option (List Char) :=
  if f3 = ['*'] then none
  else if goParseFloatOk f3 then some f3 else none

/-- `UCRecord` (ucs.go): one decoded UC line. -/
structure UCRecord where
  RecordType : List Char
  ClusterNumber : Nat
  Size : Nat
  Identity : Option (List Char)
  Strand : Option Char
  Unused1 : List Char
  Unused2 : List Char
  CIGAR : List Char
  Query : List Char
  Target : List Char
deriving DecidableEq

/-- Outcome of `parseUCRecord` on one line: a skip signal
(`(UCRecord{}, false)` in Go), a decoded record, or a runtime crash.
The crash constructor models the Go runtime panic raised by the
out-of-range string index `fields[4][0]` on an empty field. -/
inductive ParseResult where
  | skip : ParseResult
  | crash : ParseResult
  | ok : UCRecord → ParseResult
deriving DecidableEq

/-- `parseUCRecord` (ucs.go): skip lines with fewer than 10 tab-separated
fields and `C` records; resolve the effective target by record type
(`H` keeps field 9, `S` and `N` self-map to the query, any other tag
keeps field 9); populate the optional fields 1–4 only when the record
type is neither `H` nor `N`, defaulting unparsable values; reading the
first byte of a non-`*` strand field crashes when that field is empty. -/
def parseUCRecord (line : List Char) (opts : Options) : ParseResult :=
  let fields := splitTab line
  if fields.length < 10 then .skip
  else if fields.getD 0 [] = ['C'] then .skip
  else
    let f0 := fields.getD 0 []
    let queryLabel := splitSeqID (fields.getD 8 []) opts.splitSeqID
    let targetLabel := splitSeqID (fields.getD 9 []) opts.splitSeqID
    let effTarget := if f0 = ['S'] ∨ f0 = ['N'] then queryLabel else targetLabel
    let base : UCRecord :=
      { RecordType := f0, ClusterNumber := 0, Size := 0,
        Identity := none, Strand := none,
        Unused1 := fields.getD 5 [], Unused2 := fields.getD 6 [],
        CIGAR := fields.getD 7 [], Query := queryLabel, Target := effTarget }
    if f0 = ['H'] ∨ f0 = ['N'] then .ok base
    else
      let f4 := fields.getD 4 []
      let populated : UCRecord :=
        { base with
          ClusterNumber := (goParseUint32 (fields.getD 1 [])).getD 0,
          Size := (goParseUint32 (fields.getD 2 [])).getD 0,
          Identity := parseIdentity (fields.getD 3 []) }
      if f4 = ['*'] then .ok populated
      else
        match f4 with
        | [] => .crash
        | c :: _ => .ok { populated with Strand := some c }

/-- The deduplication key of `processAndWriteText`:
`record.Query + "\t" + record.Target`. -/
def pairKey (r : UCRecord) : List Char := r.Query ++ '\t' :: r.Target

/-- The key string built from a bare (query, target) pair. -/
def keyOfPair (p : List Char × List Char) : List Char := p.1 ++ '\t' :: p.2

/-- The (query, target) projection of a record. -/
def recPair (r : UCRecord) : List Char × List Char := (r.Query, r.Target)

/-- Insertion into a `map[string]struct{}` set: append if absent. -/
def insertSet (s : List (List Char)) (x : List Char) : List (List Char) :=
  if x ∈ s then s else s ++ [x]

/-- `queryToTargets[q][t] = struct{}{}` on the nested Go map, creating
the inner set when needed; modelled on an insertion-ordered association
list whose inner lists are insertion-ordered sets. -/
def qtInsert : List (List Char × List (List Char)) → List Char → List Char →
    List (List Char × List (List Char))
  | [], q, t => [(q, [t])]
  | (q', ts) :: rest, q, t =>
    if q' = q then (q', if t ∈ ts then ts else ts ++ [t]) :: rest
    else (q', ts) :: qtInsert rest q t

/-- `if _, exists := m[q]; !exists { m[q] = make(...) }`: ensure the key
`q` is present with an (initially empty) target set. -/
def qtEnsure : List (List Char × List (List Char)) → List Char →
    List (List Char × List (List Char))
  | [], q => [(q, [])]
  | (q', ts) :: rest, q =>
    if q' = q then (q', ts) :: rest else (q', ts) :: qtEnsure rest q

/-- Go map read `m[q]` on the association-list model (missing key reads
as the empty set). -/
def qtLookup : List (List Char × List (List Char)) → List Char →
    List (List Char)
  | [], _ => []
  | (q', ts) :: rest, q => if q' = q then ts else qtLookup rest q

/-- The mutable state of the `processAndWriteText` loop: the seen
pair-key set, the query→targets map of multi-target mode, the duplicate
counter, and the records written so far. -/
structure TextState where
  seenPairs : List (List Char)
  queryToTargets : List (List Char × List (List Char))
  dupCount : Nat
  written : List UCRecord
deriving DecidableEq

def initTextState : TextState :=
  { seenPairs := [], queryToTargets := [], dupCount := 0, written := [] }

/-- One iteration of the record loop of `processAndWriteText` on an
already-decoded record: duplicate suppression (when enabled), then
either multi-target accumulation or direct emission. -/
def stepRecord (opts : Options) (st : TextState) (r : UCRecord) : TextState :=
  if opts.removeDups = true ∧ pairKey r ∈ st.seenPairs then
    { st with dupCount := st.dupCount + 1 }
  else
    let st1 :=
      if opts.removeDups = true then
        { st with seenPairs := st.seenPairs ++ [pairKey r] }
      else st
    if opts.multiMapped = true then
      { st1 with queryToTargets := qtInsert st1.queryToTargets r.Query r.Target }
    else
      { st1 with written := st1.written ++ [r] }

/-- The record loop of `processAndWriteText`. -/
def runRecords (opts : Options) : List UCRecord → TextState → TextState
  | [], st => st
  | r :: rs, st => runRecords opts rs (stepRecord opts st r)

/-- The end-of-stream emission of multi-target mode: for every map entry
whose target set has more than one element, one row per target. -/
def multiOut (m : List (List Char × List (List Char))) :
    List (List Char × List Char) :=
  (m.filter (fun e => 1 < e.2.length)).flatMap
    (fun e => e.2.map (fun t => (e.1, t)))

/-- The (query, target) pairs of the rows `processAndWriteText` writes
after the header: the buffered multi-target rows in multi-target mode,
otherwise the rows written during the loop. -/
def outputPairs (opts : Options) (st : TextState) :
    List (List Char × List Char) :=
  if opts.multiMapped = true then multiOut st.queryToTargets
  else st.written.map recPair

/-- The end-of-run duplicate report on stderr: present exactly when the
duplicate count is positive. -/
def dupReport (st : TextState) : Option Nat :=
  if 0 < st.dupCount then some st.dupCount else none

/-- Decode a list of input lines with `parseUCRecord`, dropping skipped
lines; a crash on any line aborts the whole run (`Except.error`). -/
def decodeLines (opts : Options) : List (List Char) → Except Unit (List UCRecord)
  | [] => .ok []
  | l :: ls =>
    match parseUCRecord l opts with
    | .crash => .error ()
    | .skip => decodeLines opts ls
    | .ok r =>
      match decodeLines opts ls with
      | .error e => .error e
      | .ok rs => .ok (r :: rs)

/-- `processAndWriteText` (ucs.go), observed at the level the claims
speak about: the (query, target) pairs of the emitted data rows and the
optional duplicate report. -/
def processAndWriteText (opts : Options) (lines : List (List Char)) :
    Except Unit (List (List Char × List Char) × Option Nat) :=
  match decodeLines opts lines with
  | .error e => .error e
  | .ok rs =>
    let st := runRecords opts rs initTextState
    .ok (outputPairs opts st, dupReport st)

/-- The accumulator state of `summarizeUC`. -/
structure SummaryState where
  rowCount : Nat
  querySequences : List (List Char)
  targetSequences : List (List Char)
  queryToTargets : List (List Char × List (List Char))
deriving DecidableEq

def initSummaryState : SummaryState :=
  { rowCount := 0, querySequences := [], targetSequences := [],
    queryToTargets := [] }

/-- One iteration of the `summarizeUC` loop: count the line, skip short
and `C` lines, record the query, self-map the target only for `S`
records, and let a `*` target contribute nothing. -/
def summStep (opts : Options) (st : SummaryState) (line : List Char) :
    SummaryState :=
  let st := { st with rowCount := st.rowCount + 1 }
  let fields := splitTab line
  if fields.length < 10 then st
  else if fields.getD 0 [] = ['C'] then st
  else
    let queryLabel := splitSeqID (fields.getD 8 []) opts.splitSeqID
    let targetLabel0 := splitSeqID (fields.getD 9 []) opts.splitSeqID
    let targetLabel :=
      if fields.getD 0 [] = ['S'] then queryLabel else targetLabel0
    let st := { st with querySequences := insertSet st.querySequences queryLabel,
                        queryToTargets := qtEnsure st.queryToTargets queryLabel }
    if targetLabel = ['*'] then st
    else
      { st with targetSequences := insertSet st.targetSequences targetLabel,
                queryToTargets := qtInsert st.queryToTargets queryLabel targetLabel }

/-- `summarizeUC` (ucs.go) over an in-memory list of lines. -/
def summarizeUC (opts : Options) (lines : List (List Char)) : SummaryState :=
  lines.foldl (summStep opts) initSummaryState

/-- The multi-mapped tally of `summarizeUC`: queries whose target set has
more than one element. -/
def multiMappedQueries (st : SummaryState) : Nat :=
  ((st.queryToTargets.filter (fun e => 1 < e.2.length)).length)

/-- `writeSummary` (ucs.go): the labelled statistic rows, in emission
order (formatting widths and highlighting are presentation only). -/
def writeSummaryRows (rowCount uniqueQueries uniqueTargets multiMapped : Nat) :
    List (String × Nat) :=
  [("Total lines in the file:", rowCount),
   ("Unique query sequences:", uniqueQueries),
   ("Unique target sequences:", uniqueTargets),
   ("Queries mapped to multiple targets:", multiMapped)]

/-- Summary mode end to end: run `summarizeUC` and lay out the report. -/
def summaryReport (opts : Options) (lines : List (List Char)) :
    List (String × Nat) :=
  let st := summarizeUC opts lines
  writeSummaryRows st.rowCount st.querySequences.length
    st.targetSequences.length (multiMappedQueries st)

/-- The keys of the query→targets association map. -/
def qtKeys (m : List (List Char × List (List Char))) : List (List Char) :=
  m.map (fun e => e.1)

/-- Well-formedness of the association-list model of a Go
`map[string]map[string]struct{}`: distinct keys, duplicate-free target
sets. -/
def QTWf (m : List (List Char × List (List Char))) : Prop :=
  (qtKeys m).Nodup ∧ ∀ e ∈ m, e.2.Nodup

/-- The invariant tying the dedup key set to the query→targets map in
multi-target mode: a tab-free pair has been seen iff its target is in
its query's set. -/
def SeenMapInv (st : TextState) : Prop :=
  ∀ q t : List Char, '\t' ∉ q → '\t' ∉ t →
    (keyOfPair (q, t) ∈ st.seenPairs ↔ t ∈ qtLookup st.queryToTargets q)

/-- The distinct effective targets a record list holds for a query. -/
def distinctTargets (rs : List UCRecord) (q : List Char) : List (List Char) :=
  ((rs.filter (fun r => r.Query = q)).map (fun r => r.Target)).dedup

/-- The parts of the processing state that deduplication, multi-target
aggregation, and map-only emission can observe: everything except the
extra columns of the written records. -/
def textObservable (st : TextState) :
    List (List Char) × List (List Char × List (List Char)) × Nat ×
      List (List Char × List Char) :=
  (st.seenPairs, st.queryToTargets, st.dupCount, st.written.map recPair)

example :
    parseUCRecord ("H\t3\t253\t100.0\t+\t*\t*\t253M\tseqA;extra\tseqB".toList)
      defaultOptions =
    .ok { RecordType := ['H'], ClusterNumber := 0, Size := 0,
          Identity := none, Strand := none,
          Unused1 := ['*'], Unused2 := ['*'],
          CIGAR := "253M".toList,
          Query := "seqA".toList, Target := "seqB".toList } := by decide

example :
    parseUCRecord ("S\t5\t200\t*\t*\t*\t*\t*\tseqC\t*".toList) defaultOptions =
    .ok { RecordType := ['S'], ClusterNumber := 5, Size := 200,
          Identity := none, Strand := none,
          Unused1 := ['*'], Unused2 := ['*'], CIGAR := ['*'],
          Query := "seqC".toList, Target := "seqC".toList } := by decide

example :
    parseUCRecord ("S\t1\t100\t99.5\t\t*\t*\t*\tq1\tt1".toList) defaultOptions =
    .crash := by decide

example :
    parseUCRecord ("C\t3\t253\t*\t*\t*\t*\t*\tq\tt".toList) defaultOptions =
    .skip := by decide

example :
    processAndWriteText defaultOptions
      ["H\t0\t9\t97.0\t+\t*\t*\t9M\tq1\tt1".toList,
       "H\t0\t9\t97.0\t+\t*\t*\t9M\tq1\tt1".toList] =
    .ok ([("q1".toList, "t1".toList)], some 1) := by rfl

example :
    processAndWriteText { defaultOptions with multiMapped := true }
      ["H\t0\t9\t97.0\t+\t*\t*\t9M\tq2\tt1".toList,
       "H\t0\t9\t97.0\t+\t*\t*\t9M\tq2\tt2".toList,
       "H\t0\t9\t97.0\t+\t*\t*\t9M\tq3\tt1".toList] =
    .ok ([("q2".toList, "t1".toList), ("q2".toList, "t2".toList)], none) := by
  rfl

example :
    summaryReport defaultOptions
      ["H\t0\t9\t97.0\t+\t*\t*\t9M\tq1\tt1".toList,
       "broken line".toList,
       "S\t1\t9\t*\t*\t*\t*\t*\tt1\t*".toList,
       "C\t1\t2\t*\t*\t*\t*\t*\tt1\t*".toList] =
    [("Total lines in the file:", 4),
     ("Unique query sequences:", 2),
     ("Unique target sequences:", 1),
     ("Queries mapped to multiple targets:", 0)] := by decide

set_option maxRecDepth 100000

example : goParseFloatOk ("100.0".toList) = true := by decide

example : goParseFloatOk ("0x1p1".toList) = true := by decide

example : goParseFloatOk ("0x1.8p-2".toList) = true := by decide

example : goParseFloatOk ("0x1".toList) = false := by decide

example : goParseFloatOk ("0x1p".toList) = false := by decide

example : goParseFloatOk ("1_0".toList) = true := by decide

example : goParseFloatOk ("1_0.5e1_0".toList) = true := by decide

example : goParseFloatOk ("1__0".toList) = false := by decide

example : goParseFloatOk ("_1".toList) = false := by decide

example : goParseFloatOk ("1_".toList) = false := by decide

example : goParseFloatOk ("1_e5".toList) = false := by decide

example : goParseFloatOk ("1e_5".toList) = false := by decide

example : goParseFloatOk ("1e308".toList) = true := by decide

example : goParseFloatOk ("2e308".toList) = false := by decide

example : goParseFloatOk ("1.7976931348623158e308".toList) = true := by
  decide

example : goParseFloatOk ("1.7976931348623159e308".toList) = false := by
  decide

example : goParseFloatOk ("1e-400".toList) = true := by decide

example : goParseFloatOk ("+inf".toList) = true := by decide

example : goParseFloatOk ("NaN".toList) = true := by decide

example : goParseFloatOk ("+nan".toList) = false := by decide

example :
    parseUCRecord ("S	1	2	0x1p1	+	*	*	*	q	t".toList)
      defaultOptions =
    .ok { RecordType := ['S'], ClusterNumber := 1, Size := 2,
          Identity := some ("0x1p1".toList), Strand := some '+',
          Unused1 := ['*'], Unused2 := ['*'], CIGAR := ['*'],
          Query := ['q'], Target := ['q'] } := by decide

example :
    parseUCRecord ("S	1	2	1_0	+	*	*	*	q	t".toList)
      defaultOptions =
    .ok { RecordType := ['S'], ClusterNumber := 1, Size := 2,
          Identity := some ("1_0".toList), Strand := some '+',
          Unused1 := ['*'], Unused2 := ['*'], CIGAR := ['*'],
          Query := ['q'], Target := ['q'] } := by decide

example :
    parseUCRecord ("S	1	2	2e308	+	*	*	*	q	t".toList)
      defaultOptions =
    .ok { RecordType := ['S'], ClusterNumber := 1, Size := 2,
          Identity := none, Strand := some '+',
          Unused1 := ['*'], Unused2 := ['*'], CIGAR := ['*'],
          Query := ['q'], Target := ['q'] } := by decide

/-! ## Basic facts about field splitting and identifiers -/

theorem splitTab_ne_nil (s : List Char) : splitTab s ≠ [] := by
  induction s with
  | nil => simp [splitTab]
  | cons c rest ih =>
    simp only [splitTab]
    split
    · simp
    · split
      · simp
      · simp

theorem splitTab_no_tab (s : List Char) : ∀ f ∈ splitTab s, '\t' ∉ f := by
  induction s with
  | nil =>
    intro f hf
    simp only [splitTab, List.mem_singleton] at hf
    simp [hf]
  | cons c rest ih =>
    intro f hf
    simp only [splitTab] at hf
    split at hf
    · rcases List.mem_cons.1 hf with h | h
      · simp [h]
      · exact ih f h
    · rename_i hc
      rcases hE : splitTab rest with _ | ⟨f0, fs⟩
      · exact absurd hE (splitTab_ne_nil rest)
      · rw [hE] at hf
        rcases List.mem_cons.1 hf with h | h
        · subst h
          intro hmem
          rcases List.mem_cons.1 hmem with h' | h'
          · exact hc h'.symm
          · exact ih f0 (hE ▸ List.mem_cons_self f0 fs) h'
        · exact ih f (hE ▸ List.mem_cons_of_mem f0 h)

theorem splitSeqID_no_tab {id : List Char} (h : '\t' ∉ id) (b : Bool) :
    '\t' ∉ splitSeqID id b := by
  unfold splitSeqID
  split
  · intro hmem
    exact h ((List.takeWhile_prefix _).subset hmem)
  · exact h

theorem splitTab_getD_no_tab (s : List Char) {i : Nat}
    (h : i < (splitTab s).length) : '\t' ∉ (splitTab s).getD i [] := by
  rw [List.getD_eq_getElem _ _ h]
  exact splitTab_no_tab s _ (List.getElem_mem h)

/-! ## Decoder characterization -/

theorem parse_ok_basic {line : List Char} {opts : Options} {r : UCRecord}
    (h : parseUCRecord line opts = .ok r) :
    10 ≤ (splitTab line).length ∧
    r.RecordType = (splitTab line).getD 0 [] ∧
    r.RecordType ≠ ['C'] ∧
    r.Query = splitSeqID ((splitTab line).getD 8 []) opts.splitSeqID ∧
    r.Target = (if r.RecordType = ['S'] ∨ r.RecordType = ['N'] then r.Query
                else splitSeqID ((splitTab line).getD 9 []) opts.splitSeqID) := by
  simp only [parseUCRecord] at h
  split at h
  · exact absurd h (by simp)
  split at h
  · exact absurd h (by simp)
  rename_i h10 hC
  push_neg at h10
  split at h
  · injection h with h
    subst h
    exact ⟨h10, rfl, hC, rfl, rfl⟩
  · split at h
    · injection h with h
      subst h
      exact ⟨h10, rfl, hC, rfl, rfl⟩
    · rcases hE : (splitTab line).getD 4 [] with _ | ⟨c, restc⟩ <;> rw [hE] at h
      · exact absurd h (by simp)
      · injection h with h
        subst h
        exact ⟨h10, rfl, hC, rfl, rfl⟩

theorem parse_ok_no_tab {line : List Char} {opts : Options} {r : UCRecord}
    (h : parseUCRecord line opts = .ok r) :
    '\t' ∉ r.Query ∧ '\t' ∉ r.Target := by
  obtain ⟨h10, _, _, hq, ht⟩ := parse_ok_basic h
  have hq' : '\t' ∉ r.Query := by
    rw [hq]
    exact splitSeqID_no_tab (splitTab_getD_no_tab line (by omega)) _
  refine ⟨hq', ?_⟩
  rw [ht]
  split
  · exact hq'
  · exact splitSeqID_no_tab (splitTab_getD_no_tab line (by omega)) _

theorem keyOfPair_inj {a b c d : List Char} (ha : '\t' ∉ a) (hc : '\t' ∉ c)
    (h : keyOfPair (a, b) = keyOfPair (c, d)) : a = c ∧ b = d := by
  unfold keyOfPair at h
  induction a generalizing c with
  | nil =>
    cases c with
    | nil =>
      simp only [List.nil_append, List.cons.injEq] at h
      exact ⟨rfl, h.2⟩
    | cons x c' =>
      simp only [List.nil_append, List.cons_append, List.cons.injEq] at h
      exact absurd (h.1 ▸ List.mem_cons_self x c') hc
  | cons x a' ih =>
    cases c with
    | nil =>
      simp only [List.cons_append, List.nil_append, List.cons.injEq] at h
      exact absurd (h.1 ▸ List.mem_cons_self x a') ha
    | cons y c' =>
      simp only [List.cons_append, List.cons.injEq] at h
      obtain ⟨hxy, hrest⟩ := h
      have := ih (fun hm => ha (List.mem_cons_of_mem x hm))
        (fun hm => hc (List.mem_cons_of_mem y hm)) hrest
      exact ⟨by rw [hxy, this.1], this.2⟩

/-! ## Claim C1: effective query and target resolution -/

/-- C1: for every input line accepted by the record decoder (and thus
having at least 10 tab-separated fields and a record-type tag other than
`C`), the effective query is always the normalized field 8, the effective
target is the normalized field 9 when the record type is `H`, and equals
the effective query when the record type is `S` or `N`. -/
theorem C1_effective_target_resolution (line : List Char) (opts : Options)
    (r : UCRecord) (h : parseUCRecord line opts = .ok r) :
    10 ≤ (splitTab line).length ∧
    r.RecordType ≠ ['C'] ∧
    r.Query = splitSeqID ((splitTab line).getD 8 []) opts.splitSeqID ∧
    (r.RecordType = ['H'] →
      r.Target = splitSeqID ((splitTab line).getD 9 []) opts.splitSeqID) ∧
    (r.RecordType = ['S'] ∨ r.RecordType = ['N'] → r.Target = r.Query) := by
  obtain ⟨h10, _, hC, hq, ht⟩ := parse_ok_basic h
  refine ⟨h10, hC, hq, ?_, ?_⟩
  · intro hH
    rw [ht, if_neg]
    rw [hH]
    simp
  · intro hSN
    rw [ht, if_pos hSN]

/-- Witness for C1 at spec example 1: an `H` line with normalization on
resolves query `seqA` (field 8 truncated at `;`) and target `seqB`. -/
theorem C1_witness :
    ∃ r, parseUCRecord
        ("H\t3\t253\t100.0\t+\t*\t*\t253M\tseqA;extra\tseqB".toList)
        defaultOptions = .ok r ∧
      r.Query = "seqA".toList ∧
      (r.RecordType = ['H'] →
        r.Target = splitSeqID
          ((splitTab ("H\t3\t253\t100.0\t+\t*\t*\t253M\tseqA;extra\tseqB".toList)).getD 9 [])
          defaultOptions.splitSeqID) := by
  refine ⟨{ RecordType := ['H'], ClusterNumber := 0, Size := 0,
            Identity := none, Strand := none,
            Unused1 := ['*'], Unused2 := ['*'],
            CIGAR := "253M".toList,
            Query := "seqA".toList, Target := "seqB".toList }, by decide, by decide,
          ?_⟩
  exact (C1_effective_target_resolution _ defaultOptions _ (by decide)).2.2.2.1

/-! ## Claim C7: decoder totality (violated by the code) -/

/-- C7 failing input: an `S` record with 10 fields whose strand field
(field 4) is empty.  The spec requires the decoder to be total and never
abort on malformed field content, but `fields[4][0]` in ucs.go raises an
index-out-of-range runtime panic here, modelled by `ParseResult.crash`. -/
theorem C7_decoder_crashes_on_empty_strand_field :
    parseUCRecord ("S\t1\t100\t99.5\t\t*\t*\t*\tq1\tt1".toList)
      defaultOptions = ParseResult.crash := by decide

/-! ## Claim C4: summary statistics set and order (violated by the code) -/

/-- C4: the claim requires five labelled statistics (lines, unique
queries, unique targets, duplicate pairs, multi-mapped queries).
`summarizeUC`/`writeSummary` in ucs.go compute no duplicate-pair count at
all: even on an input holding one duplicated (query, target) pair the
emitted summary is exactly these four rows, with no duplicate statistic
between the target row and the multi-mapped row. -/
theorem C4_summary_reports_four_statistics :
    summaryReport defaultOptions
      ["H\t0\t9\t97.0\t+\t*\t*\t9M\tq1\tt1".toList,
       "H\t0\t9\t97.0\t+\t*\t*\t9M\tq1\tt1".toList] =
      [("Total lines in the file:", 2),
       ("Unique query sequences:", 1),
       ("Unique target sequences:", 1),
       ("Queries mapped to multiple targets:", 0)] ∧
    (summaryReport defaultOptions
      ["H\t0\t9\t97.0\t+\t*\t*\t9M\tq1\tt1".toList,
       "H\t0\t9\t97.0\t+\t*\t*\t9M\tq1\tt1".toList]).length = 4 := by
  constructor
  · rfl
  · rfl

/-! ## Claim C5: summary-mode self-mapping (corrected) -/

/-- C5 counterexample: an accepted `N` record with query `q1` and target
field `t1`.  The claim says its effective target equals the effective
query, so `q1` should enter the unique-target set; `summarizeUC` in
ucs.go self-maps only `S` records, so the target set receives the raw
field 9 value `t1` and not `q1`. -/
theorem C5_counterexample_N_record :
    (summarizeUC defaultOptions
        ["N\t*\t*\t*\t*\t*\t*\t*\tq1\tt1".toList]).targetSequences =
      ["t1".toList] ∧
    "q1".toList ∉ (summarizeUC defaultOptions
        ["N\t*\t*\t*\t*\t*\t*\t*\tq1\tt1".toList]).targetSequences := by
  decide

/-- C5 amended: in summary mode, for every accepted record (at least 10
fields, tag not `C`), the query label joins the unique-query set; the
target label self-maps to the query label only for `S` records and is
the normalized field 9 for every other type (including `N`); a target
label of literal `*` contributes nothing to the target set or the
query's target set. -/
theorem C5_amended_summary_self_maps_only_S (opts : Options)
    (st : SummaryState) (line : List Char)
    (h10 : 10 ≤ (splitTab line).length)
    (hC : (splitTab line).getD 0 [] ≠ ['C']) :
    (summStep opts st line).querySequences =
      insertSet st.querySequences
        (splitSeqID ((splitTab line).getD 8 []) opts.splitSeqID) ∧
    (summStep opts st line).targetSequences =
      (if (if (splitTab line).getD 0 [] = ['S'] then
             splitSeqID ((splitTab line).getD 8 []) opts.splitSeqID
           else splitSeqID ((splitTab line).getD 9 []) opts.splitSeqID) = ['*']
       then st.targetSequences
       else insertSet st.targetSequences
              (if (splitTab line).getD 0 [] = ['S'] then
                 splitSeqID ((splitTab line).getD 8 []) opts.splitSeqID
               else splitSeqID ((splitTab line).getD 9 []) opts.splitSeqID)) ∧
    (summStep opts st line).queryToTargets =
      (if (if (splitTab line).getD 0 [] = ['S'] then
             splitSeqID ((splitTab line).getD 8 []) opts.splitSeqID
           else splitSeqID ((splitTab line).getD 9 []) opts.splitSeqID) = ['*']
       then qtEnsure st.queryToTargets
              (splitSeqID ((splitTab line).getD 8 []) opts.splitSeqID)
       else qtInsert
              (qtEnsure st.queryToTargets
                (splitSeqID ((splitTab line).getD 8 []) opts.splitSeqID))
              (splitSeqID ((splitTab line).getD 8 []) opts.splitSeqID)
              (if (splitTab line).getD 0 [] = ['S'] then
                 splitSeqID ((splitTab line).getD 8 []) opts.splitSeqID
               else splitSeqID ((splitTab line).getD 9 []) opts.splitSeqID)) := by
  simp only [summStep]
  rw [if_neg (by omega), if_neg hC]
  refine ⟨?_, ?_, ?_⟩ <;> split <;> split <;> rfl

/-- Witness for C5's amended theorem at spec example 2: the `S` record
self-maps, so seed `seqC` enters the target set even though field 9 is
`*`. -/
theorem C5_amended_witness :
    (summStep defaultOptions initSummaryState
        ("S\t5\t200\t*\t*\t*\t*\t*\tseqC\t*".toList)).querySequences =
      insertSet initSummaryState.querySequences
        (splitSeqID ((splitTab ("S\t5\t200\t*\t*\t*\t*\t*\tseqC\t*".toList)).getD 8 [])
          defaultOptions.splitSeqID) ∧
    (summStep defaultOptions initSummaryState
        ("S\t5\t200\t*\t*\t*\t*\t*\tseqC\t*".toList)).targetSequences =
      ["seqC".toList] := by
  have h := C5_amended_summary_self_maps_only_S defaultOptions initSummaryState
    ("S\t5\t200\t*\t*\t*\t*\t*\tseqC\t*".toList) (by decide) (by decide)
  refine ⟨h.1, ?_⟩
  rw [h.2.1]
  decide

/-! ## Claim C6: optional-field decoding (corrected) -/

set_option maxRecDepth 100000 in
/-- C6 counterexample: an accepted `H` line whose fields 1–4 are all
parsable (`3`, `253`, `100.0`, `+`).  The claim says the decoder
populates cluster number, size, identity and strand from them; ucs.go
skips the optional-field block for `H` (and `N`) records, so the decoded
record carries the defaults instead: cluster number 0, size 0, identity
and strand absent. -/
theorem C6_counterexample_H_fields_not_populated :
    goParseUint32 ['3'] = some 3 ∧
    goParseFloatOk ("100.0".toList) = true ∧
    parseUCRecord ("H\t3\t253\t100.0\t+\t*\t*\t253M\tq\tt".toList)
      defaultOptions =
      ParseResult.ok
        { RecordType := ['H'], ClusterNumber := 0, Size := 0,
          Identity := none, Strand := none, Unused1 := ['*'],
          Unused2 := ['*'], CIGAR := "253M".toList,
          Query := ['q'], Target := ['t'] } := by decide

/-- C6 amended: the decoder populates cluster number, size, identity and
strand from fields 1–4 only for accepted records whose type is neither
`H` nor `N`; for `H` and `N` records all four stay at their defaults
regardless of field content.  In the populated case unparsable or `*`
integer fields default to zero, a `*` or unparsable identity is absent,
and a non-`*` strand field contributes its first character — provided
field 4 is nonempty (an empty non-`*` field 4 crashes, the C7 defect). -/
theorem C6_amended_optional_field_decoding (opts : Options)
    (line : List Char) (h10 : 10 ≤ (splitTab line).length)
    (hC : (splitTab line).getD 0 [] ≠ ['C']) :
    ((splitTab line).getD 0 [] = ['H'] ∨ (splitTab line).getD 0 [] = ['N'] →
      ∃ r, parseUCRecord line opts = .ok r ∧ r.ClusterNumber = 0 ∧
        r.Size = 0 ∧ r.Identity = none ∧ r.Strand = none) ∧
    ((splitTab line).getD 0 [] ≠ ['H'] → (splitTab line).getD 0 [] ≠ ['N'] →
      (splitTab line).getD 4 [] ≠ [] →
      ∃ r, parseUCRecord line opts = .ok r ∧
        r.ClusterNumber = (goParseUint32 ((splitTab line).getD 1 [])).getD 0 ∧
        r.Size = (goParseUint32 ((splitTab line).getD 2 [])).getD 0 ∧
        r.Identity = parseIdentity ((splitTab line).getD 3 []) ∧
        r.Strand = (if (splitTab line).getD 4 [] = ['*'] then none
                    else ((splitTab line).getD 4 []).head?)) := by
  constructor
  · intro hHN
    simp only [parseUCRecord]
    rw [if_neg (by omega), if_neg hC, if_pos hHN]
    exact ⟨_, rfl, rfl, rfl, rfl, rfl⟩
  · intro hH hN h4
    simp only [parseUCRecord]
    rw [if_neg (by omega), if_neg hC,
        if_neg (by intro h; rcases h with h | h; exact hH h; exact hN h)]
    split
    · exact ⟨_, rfl, rfl, rfl, rfl, rfl⟩
    · rcases hE : (splitTab line).getD 4 [] with _ | ⟨c, cs⟩
      · exact absurd hE h4
      · exact ⟨_, rfl, rfl, rfl, rfl, rfl⟩

/-- Witness for C6's amended theorem on an `S` line with an unparsable
cluster-number field and `*` identity: the integer defaults to zero, the
identity is absent, the strand keeps its first character. -/
theorem C6_amended_witness :
    ∃ r, parseUCRecord ("S\tx9\t200\t*\t-\t*\t*\t*\tseqC\t*".toList)
        defaultOptions = .ok r ∧
      r.ClusterNumber =
        (goParseUint32 ((splitTab ("S\tx9\t200\t*\t-\t*\t*\t*\tseqC\t*".toList)).getD 1 [])).getD 0 ∧
      r.Size =
        (goParseUint32 ((splitTab ("S\tx9\t200\t*\t-\t*\t*\t*\tseqC\t*".toList)).getD 2 [])).getD 0 ∧
      r.Identity = parseIdentity ((splitTab ("S\tx9\t200\t*\t-\t*\t*\t*\tseqC\t*".toList)).getD 3 []) ∧
      r.Strand = (if (splitTab ("S\tx9\t200\t*\t-\t*\t*\t*\tseqC\t*".toList)).getD 4 [] = ['*'] then none
                  else ((splitTab ("S\tx9\t200\t*\t-\t*\t*\t*\tseqC\t*".toList)).getD 4 []).head?) :=
  (C6_amended_optional_field_decoding defaultOptions
    ("S\tx9\t200\t*\t-\t*\t*\t*\tseqC\t*".toList) (by decide) (by decide)).2
    (by decide) (by decide) (by decide)

/-! ## Claim C10: unrecognized record-type tags (corrected) -/

/-- Dedup, aggregation and the map-only output projection depend on a
record only through its (query, target) pair: two records with equal
query and target drive `stepRecord` to observably equal states. -/
theorem stepRecord_observable (opts : Options) (st : TextState)
    (r1 r2 : UCRecord) (hq : r1.Query = r2.Query)
    (ht : r1.Target = r2.Target) :
    textObservable (stepRecord opts st r1) =
      textObservable (stepRecord opts st r2) := by
  have hkey : pairKey r1 = pairKey r2 := by simp [pairKey, hq, ht]
  have hpair : recPair r1 = recPair r2 := by simp [recPair, hq, ht]
  unfold stepRecord
  rw [hkey, hq, ht]
  split
  · rfl
  · unfold textObservable
    split <;> split <;> simp [hpair]

/-- C10 counterexample: a 10-field line with the unrecognized tag `X`
and an empty field 4.  The claim says any unrecognized-tag line is
decoded with effective target the normalized field 9; this one instead
crashes (it reaches the optional-field block and the `fields[4][0]`
index, the C7 defect), so it is not decoded at all. -/
theorem C10_counterexample_empty_strand :
    parseUCRecord ("X\t1\t2\t90.0\t\t*\t*\t*\tq\tt".toList)
      defaultOptions = ParseResult.crash := by decide

/-- C10 amended: a line with at least 10 fields whose tag is none of
`C`, `S`, `H`, `N` is not skipped: provided its field 4 is nonempty (an
empty field 4 crashes, the C7 defect), it decodes with effective query
the normalized field 8 and effective target the normalized field 9, and
its contribution to deduplication, aggregation and map-only emission is
exactly that of an `H` record (or any record) with the same query and
target. -/
theorem C10_amended_unrecognized_tag_flows_like_H (opts : Options)
    (line : List Char) (h10 : 10 ≤ (splitTab line).length)
    (hC : (splitTab line).getD 0 [] ≠ ['C'])
    (hS : (splitTab line).getD 0 [] ≠ ['S'])
    (hH : (splitTab line).getD 0 [] ≠ ['H'])
    (hN : (splitTab line).getD 0 [] ≠ ['N'])
    (h4 : (splitTab line).getD 4 [] ≠ []) :
    ∃ r, parseUCRecord line opts = .ok r ∧
      r.RecordType = (splitTab line).getD 0 [] ∧
      r.Query = splitSeqID ((splitTab line).getD 8 []) opts.splitSeqID ∧
      r.Target = splitSeqID ((splitTab line).getD 9 []) opts.splitSeqID ∧
      ∀ (opts2 : Options) (st : TextState) (rH : UCRecord),
        rH.Query = r.Query → rH.Target = r.Target →
        textObservable (stepRecord opts2 st r) =
          textObservable (stepRecord opts2 st rH) := by
  simp only [parseUCRecord]
  rw [if_neg (by omega), if_neg hC,
      if_neg (by intro h; rcases h with h | h; exact hH h; exact hN h)]
  split
  · refine ⟨_, rfl, rfl, rfl, ?_, ?_⟩
    · exact if_neg (fun h => h.elim hS hN)
    · intro opts2 st rH hq ht
      exact stepRecord_observable opts2 st _ rH hq.symm ht.symm
  · rcases hE : (splitTab line).getD 4 [] with _ | ⟨c, cs⟩
    · exact absurd hE h4
    · refine ⟨_, rfl, rfl, rfl, ?_, ?_⟩
      · exact if_neg (fun h => h.elim hS hN)
      · intro opts2 st rH hq ht
        exact stepRecord_observable opts2 st _ rH hq.symm ht.symm

/-- Witness for C10's amended theorem: the tag `X` line decodes with
query `q` and target `t` (field 9). -/
theorem C10_amended_witness :
    ∃ r, parseUCRecord ("X\t1\t2\t90.0\t+\t*\t*\t*\tq\tt".toList)
        defaultOptions = .ok r ∧
      r.RecordType = ['X'] ∧
      r.Query = splitSeqID ((splitTab ("X\t1\t2\t90.0\t+\t*\t*\t*\tq\tt".toList)).getD 8 [])
        defaultOptions.splitSeqID ∧
      r.Target = splitSeqID ((splitTab ("X\t1\t2\t90.0\t+\t*\t*\t*\tq\tt".toList)).getD 9 [])
        defaultOptions.splitSeqID ∧
      ∀ (opts2 : Options) (st : TextState) (rH : UCRecord),
        rH.Query = r.Query → rH.Target = r.Target →
        textObservable (stepRecord opts2 st r) =
          textObservable (stepRecord opts2 st rH) := by
  obtain ⟨r, h1, h2, h3, h4, h5⟩ :=
    C10_amended_unrecognized_tag_flows_like_H defaultOptions
      ("X\t1\t2\t90.0\t+\t*\t*\t*\tq\tt".toList)
      (by decide) (by decide) (by decide) (by decide) (by decide) (by decide)
  exact ⟨r, h1, by rw [h2]; decide, h3, h4, h5⟩

/-! ## Skipped lines: short lines and C records -/

theorem parse_short_skip {line : List Char} (opts : Options)
    (h : (splitTab line).length < 10) :
    parseUCRecord line opts = .skip := by
  simp only [parseUCRecord]
  rw [if_pos h]

theorem parse_C_skip {line : List Char} (opts : Options)
    (hC : (splitTab line).getD 0 [] = ['C']) :
    parseUCRecord line opts = .skip := by
  by_cases h10 : (splitTab line).length < 10
  · exact parse_short_skip opts h10
  · simp only [parseUCRecord]
    rw [if_neg h10, if_pos hC]

theorem decodeLines_skip_middle {l : List Char} {opts : Options}
    (h : parseUCRecord l opts = .skip) (pre post : List (List Char)) :
    decodeLines opts (pre ++ l :: post) = decodeLines opts (pre ++ post) := by
  induction pre with
  | nil => simp [decodeLines, h]
  | cons p pre ih =>
    rcases hp : parseUCRecord p opts <;>
      simp [decodeLines, hp, ih]

theorem summStep_short {line : List Char} (opts : Options) (st : SummaryState)
    (h : (splitTab line).length < 10) :
    summStep opts st line = { st with rowCount := st.rowCount + 1 } := by
  simp only [summStep]
  rw [if_pos h]

theorem summStep_C {line : List Char} (opts : Options) (st : SummaryState)
    (hC : (splitTab line).getD 0 [] = ['C']) :
    summStep opts st line = { st with rowCount := st.rowCount + 1 } := by
  by_cases h10 : (splitTab line).length < 10
  · exact summStep_short opts st h10
  · simp only [summStep]
    rw [if_neg h10, if_pos hC]

theorem summStep_rowCount (opts : Options) (st : SummaryState)
    (line : List Char) :
    (summStep opts st line).rowCount = st.rowCount + 1 := by
  simp only [summStep]
  split
  · rfl
  · split
    · rfl
    · split
      · split <;> rfl
      · split <;> rfl

theorem summStep_rowCount_shift (opts : Options) (st : SummaryState)
    (line : List Char) (n : Nat) :
    summStep opts { st with rowCount := n } line =
      { summStep opts st line with rowCount := n + 1 } := by
  simp only [summStep]
  split
  · rfl
  · split
    · rfl
    · split
      · split <;> rfl
      · split <;> rfl

theorem summFold_rowCount_shift (opts : Options) (lines : List (List Char)) :
    ∀ (st : SummaryState) (n : Nat),
      List.foldl (summStep opts) { st with rowCount := n } lines =
        { List.foldl (summStep opts) st lines with
          rowCount := n + lines.length } := by
  induction lines with
  | nil => intro st n; simp
  | cons l ls ih =>
    intro st n
    rw [List.foldl_cons, List.foldl_cons, summStep_rowCount_shift, ih]
    have harith : n + 1 + ls.length = n + (l :: ls).length := by
      simp [List.length_cons]
      omega
    rw [harith]

theorem summFold_rowCount (opts : Options) (lines : List (List Char)) :
    ∀ st : SummaryState,
      (List.foldl (summStep opts) st lines).rowCount =
        st.rowCount + lines.length := by
  induction lines with
  | nil => intro st; simp
  | cons l ls ih =>
    intro st
    rw [List.foldl_cons, ih, summStep_rowCount]
    simp [List.length_cons]
    omega

/-! ## Claim C8: C records contribute nothing -/

/-- C8: under every flag combination, inserting a `C`-tagged line
anywhere in the input changes neither the emitted output (rows and
duplicate report) nor any summary component other than the raw line
count, which grows by exactly one.  In particular no `C` line ever
contributes to the unique-query set, the unique-target set, or the
emitted rows. -/
theorem C8_C_records_contribute_nothing (opts : Options)
    (pre post : List (List Char)) (cline : List Char)
    (hC : (splitTab cline).getD 0 [] = ['C']) :
    processAndWriteText opts (pre ++ cline :: post) =
      processAndWriteText opts (pre ++ post) ∧
    summarizeUC opts (pre ++ cline :: post) =
      { summarizeUC opts (pre ++ post) with
        rowCount := (summarizeUC opts (pre ++ post)).rowCount + 1 } := by
  constructor
  · unfold processAndWriteText
    rw [decodeLines_skip_middle (parse_C_skip opts hC)]
  · unfold summarizeUC
    rw [List.foldl_append, List.foldl_append, List.foldl_cons,
        summStep_C opts _ hC, summFold_rowCount_shift]
    simp only [summFold_rowCount, SummaryState.mk.injEq, and_true]
    omega

/-- Witness for C8 on a concrete input: a `C` line amid an `H` line and
an `S` line. -/
theorem C8_witness :
    processAndWriteText defaultOptions
        (["H\t0\t9\t97.0\t+\t*\t*\t9M\tq1\tt1".toList] ++
          "C\t1\t2\t*\t*\t*\t*\t*\tt1\t*".toList ::
            ["S\t1\t9\t*\t*\t*\t*\t*\tt1\t*".toList]) =
      processAndWriteText defaultOptions
        (["H\t0\t9\t97.0\t+\t*\t*\t9M\tq1\tt1".toList] ++
          ["S\t1\t9\t*\t*\t*\t*\t*\tt1\t*".toList]) ∧
    summarizeUC defaultOptions
        (["H\t0\t9\t97.0\t+\t*\t*\t9M\tq1\tt1".toList] ++
          "C\t1\t2\t*\t*\t*\t*\t*\tt1\t*".toList ::
            ["S\t1\t9\t*\t*\t*\t*\t*\tt1\t*".toList]) =
      { summarizeUC defaultOptions
          (["H\t0\t9\t97.0\t+\t*\t*\t9M\tq1\tt1".toList] ++
            ["S\t1\t9\t*\t*\t*\t*\t*\tt1\t*".toList]) with
        rowCount :=
          (summarizeUC defaultOptions
            (["H\t0\t9\t97.0\t+\t*\t*\t9M\tq1\tt1".toList] ++
              ["S\t1\t9\t*\t*\t*\t*\t*\tt1\t*".toList])).rowCount + 1 } :=
  C8_C_records_contribute_nothing defaultOptions
    ["H\t0\t9\t97.0\t+\t*\t*\t9M\tq1\tt1".toList]
    ["S\t1\t9\t*\t*\t*\t*\t*\tt1\t*".toList]
    ("C\t1\t2\t*\t*\t*\t*\t*\tt1\t*".toList) (by decide)

/-! ## Claim C9: short lines are skipped but still counted -/

/-- C9: every line increments the summary line count (the count moves
before any validity check), and a line with fewer than 10 tab-separated
fields is otherwise skipped without error: the decoder signals skip, the
summary sets and map stay untouched, and the line adds no output row to
the emission path. -/
theorem C9_short_lines_counted_not_processed (opts : Options)
    (line : List Char) :
    (∀ st : SummaryState, (summStep opts st line).rowCount = st.rowCount + 1) ∧
    ((splitTab line).length < 10 →
      parseUCRecord line opts = .skip ∧
      (∀ st : SummaryState,
        summStep opts st line = { st with rowCount := st.rowCount + 1 }) ∧
      (∀ pre post : List (List Char),
        processAndWriteText opts (pre ++ line :: post) =
          processAndWriteText opts (pre ++ post))) := by
  refine ⟨fun st => summStep_rowCount opts st line, fun h10 => ⟨?_, ?_, ?_⟩⟩
  · exact parse_short_skip opts h10
  · exact fun st => summStep_short opts st h10
  · intro pre post
    unfold processAndWriteText
    rw [decodeLines_skip_middle (parse_short_skip opts h10)]

/-- Witness for C9 at spec example 5: an 8-field line is skipped by the
decoder and the emission path yet counted by the summary. -/
theorem C9_witness :
    parseUCRecord ("H\t0\t9\t97.0\t+\t*\t*\tq1".toList) defaultOptions =
      .skip ∧
    (summStep defaultOptions initSummaryState
        ("H\t0\t9\t97.0\t+\t*\t*\tq1".toList)) =
      { initSummaryState with rowCount := initSummaryState.rowCount + 1 } ∧
    processAndWriteText defaultOptions
        ([] ++ "H\t0\t9\t97.0\t+\t*\t*\tq1".toList ::
          ["S\t1\t9\t*\t*\t*\t*\t*\tt1\t*".toList]) =
      processAndWriteText defaultOptions
        ([] ++ ["S\t1\t9\t*\t*\t*\t*\t*\tt1\t*".toList]) := by
  obtain ⟨h2, h3, h4⟩ :=
    (C9_short_lines_counted_not_processed defaultOptions
      ("H\t0\t9\t97.0\t+\t*\t*\tq1".toList)).2 (by decide)
  exact ⟨h2, h3 initSummaryState, h4 [] ["S\t1\t9\t*\t*\t*\t*\t*\tt1\t*".toList]⟩

/-! ## Deduplication loop: step lemmas -/

theorem stepRecord_dup (opts : Options) (st : TextState) (r : UCRecord)
    (hd : opts.removeDups = true) (hmem : pairKey r ∈ st.seenPairs) :
    stepRecord opts st r = { st with dupCount := st.dupCount + 1 } := by
  unfold stepRecord
  rw [if_pos ⟨hd, hmem⟩]

theorem stepRecord_new (opts : Options) (st : TextState) (r : UCRecord)
    (hd : opts.removeDups = true) (hmem : pairKey r ∉ st.seenPairs) :
    (stepRecord opts st r).seenPairs = st.seenPairs ++ [pairKey r] ∧
    (stepRecord opts st r).dupCount = st.dupCount := by
  unfold stepRecord
  rw [if_neg (fun hc => hmem hc.2), if_pos hd]
  by_cases h3 : opts.multiMapped = true
  · rw [if_pos h3]
    exact ⟨rfl, rfl⟩
  · rw [if_neg h3]
    exact ⟨rfl, rfl⟩

theorem stepRecord_new_written (opts : Options) (st : TextState)
    (r : UCRecord) (hm : opts.multiMapped = false)
    (hno : ¬(opts.removeDups = true ∧ pairKey r ∈ st.seenPairs)) :
    (stepRecord opts st r).written = st.written ++ [r] := by
  unfold stepRecord
  rw [if_neg hno]
  by_cases h2 : opts.removeDups = true
  · rw [if_pos h2, if_neg (by simp [hm])]
  · rw [if_neg h2, if_neg (by simp [hm])]

theorem stepRecord_written_cases (opts : Options) (st : TextState)
    (r : UCRecord) :
    (stepRecord opts st r).written = st.written ∨
    (stepRecord opts st r).written = st.written ++ [r] := by
  unfold stepRecord
  by_cases h1 : opts.removeDups = true ∧ pairKey r ∈ st.seenPairs
  · rw [if_pos h1]
    exact Or.inl rfl
  · rw [if_neg h1]
    by_cases h2 : opts.removeDups = true
    · rw [if_pos h2]
      by_cases h3 : opts.multiMapped = true
      · rw [if_pos h3]
        exact Or.inl rfl
      · rw [if_neg h3]
        exact Or.inr rfl
    · rw [if_neg h2]
      by_cases h3 : opts.multiMapped = true
      · rw [if_pos h3]
        exact Or.inl rfl
      · rw [if_neg h3]
        exact Or.inr rfl

/-! ## Deduplication loop: run lemmas -/

theorem run_dup_seen (opts : Options) (hd : opts.removeDups = true) :
    ∀ (rs : List UCRecord) (st : TextState),
      (runRecords opts rs st).dupCount +
          (runRecords opts rs st).seenPairs.length =
        st.dupCount + st.seenPairs.length + rs.length := by
  intro rs
  induction rs with
  | nil => intro st; simp [runRecords]
  | cons r rs ih =>
    intro st
    simp only [runRecords]
    by_cases hmem : pairKey r ∈ st.seenPairs
    · rw [ih, stepRecord_dup opts st r hd hmem]
      simp [List.length_cons]
      omega
    · obtain ⟨hs, hdup⟩ := stepRecord_new opts st r hd hmem
      rw [ih, hs, hdup]
      simp [List.length_append, List.length_cons]
      omega

theorem run_seen_mem (opts : Options) (hd : opts.removeDups = true) :
    ∀ (rs : List UCRecord) (st : TextState) (k : List Char),
      k ∈ (runRecords opts rs st).seenPairs ↔
        k ∈ st.seenPairs ∨ k ∈ rs.map pairKey := by
  intro rs
  induction rs with
  | nil => intro st k; simp [runRecords]
  | cons r rs ih =>
    intro st k
    simp only [runRecords]
    rw [ih]
    by_cases hmem : pairKey r ∈ st.seenPairs
    · rw [stepRecord_dup opts st r hd hmem]
      simp only [List.map_cons, List.mem_cons]
      constructor
      · rintro (h | h)
        · exact Or.inl h
        · exact Or.inr (Or.inr h)
      · rintro (h | h | h)
        · exact Or.inl h
        · exact Or.inl (h ▸ hmem)
        · exact Or.inr h
    · obtain ⟨hs, _⟩ := stepRecord_new opts st r hd hmem
      rw [hs]
      simp only [List.mem_append, List.mem_singleton, List.map_cons,
        List.mem_cons]
      tauto

theorem run_seen_nodup (opts : Options) (hd : opts.removeDups = true) :
    ∀ (rs : List UCRecord) (st : TextState),
      st.seenPairs.Nodup → (runRecords opts rs st).seenPairs.Nodup := by
  intro rs
  induction rs with
  | nil => intro st h; simpa [runRecords] using h
  | cons r rs ih =>
    intro st h
    simp only [runRecords]
    refine ih (stepRecord opts st r) ?_
    by_cases hmem : pairKey r ∈ st.seenPairs
    · rw [stepRecord_dup opts st r hd hmem]
      exact h
    · rw [(stepRecord_new opts st r hd hmem).1]
      simp [List.nodup_append, h, hmem]

theorem run_written_mem (opts : Options) :
    ∀ (rs : List UCRecord) (st : TextState) (x : UCRecord),
      x ∈ (runRecords opts rs st).written → x ∈ st.written ∨ x ∈ rs := by
  intro rs
  induction rs with
  | nil =>
    intro st x h
    simp only [runRecords] at h
    exact Or.inl h
  | cons r rs ih =>
    intro st x h
    simp only [runRecords] at h
    rcases ih (stepRecord opts st r) x h with h1 | h1
    · rcases stepRecord_written_cases opts st r with h2 | h2
      · rw [h2] at h1
        exact Or.inl h1
      · rw [h2] at h1
        rcases List.mem_append.1 h1 with h3 | h3
        · exact Or.inl h3
        · simp only [List.mem_singleton] at h3
          exact Or.inr (h3 ▸ List.mem_cons_self r rs)
    · exact Or.inr (List.mem_cons_of_mem r h1)

/-! ## Deduplication loop: emitted-pair counts -/

theorem run_written_count (opts : Options) (hd : opts.removeDups = true)
    (hm : opts.multiMapped = false) :
    ∀ (rs : List UCRecord) (st : TextState),
      (∀ r ∈ rs, '\t' ∉ r.Query ∧ '\t' ∉ r.Target) →
      (∀ p : List Char × List Char, '\t' ∉ p.1 → '\t' ∉ p.2 →
        (st.written.map recPair).count p =
          (if keyOfPair p ∈ st.seenPairs then 1 else 0)) →
      ∀ p : List Char × List Char, '\t' ∉ p.1 → '\t' ∉ p.2 →
        ((runRecords opts rs st).written.map recPair).count p =
          (if keyOfPair p ∈ (runRecords opts rs st).seenPairs then 1 else 0) := by
  intro rs
  induction rs with
  | nil =>
    intro st htf hinv p hp1 hp2
    simp only [runRecords]
    exact hinv p hp1 hp2
  | cons r rs ih =>
    intro st htf hinv p hp1 hp2
    simp only [runRecords]
    obtain ⟨hqr, htr⟩ := htf r (List.mem_cons_self r rs)
    refine ih (stepRecord opts st r)
      (fun x hx => htf x (List.mem_cons_of_mem r hx)) ?_ p hp1 hp2
    by_cases hmem : pairKey r ∈ st.seenPairs
    · intro p2 h1 h2
      rw [stepRecord_dup opts st r hd hmem]
      exact hinv p2 h1 h2
    · intro p2 h1 h2
      rw [stepRecord_new_written opts st r hm (fun hc => hmem hc.2),
        (stepRecord_new opts st r hd hmem).1,
        List.map_append, List.count_append]
      by_cases hpr : p2 = recPair r
      · have hk : keyOfPair p2 = pairKey r := by rw [hpr]; rfl
        rw [hinv p2 h1 h2, hk, if_neg hmem,
          if_pos (List.mem_append_right _ (by simp))]
        simp [hpr, recPair]
      · have hkne : keyOfPair p2 ≠ pairKey r := by
          intro hk
          obtain ⟨hq, ht⟩ := keyOfPair_inj h1 hqr hk
          exact hpr (Prod.ext hq ht)
        rw [hinv p2 h1 h2]
        have hcnt : (List.map recPair [r]).count p2 = 0 := by
          refine List.count_eq_zero.2 ?_
          simp only [List.map_cons, List.map_nil, List.mem_singleton]
          exact hpr
        rw [hcnt]
        simp only [List.mem_append, List.mem_singleton, hkne, or_false,
          Nat.add_zero]

/-! ## From decoded lines to records -/

theorem decodeLines_mem (opts : Options) :
    ∀ (lines : List (List Char)) (rs : List UCRecord),
      decodeLines opts lines = .ok rs →
      ∀ r ∈ rs, ∃ l ∈ lines, parseUCRecord l opts = .ok r := by
  intro lines
  induction lines with
  | nil =>
    intro rs h r hr
    simp only [decodeLines] at h
    injection h with h
    subst h
    exact absurd hr (List.not_mem_nil r)
  | cons l ls ih =>
    intro rs h r hr
    simp only [decodeLines] at h
    rcases hp : parseUCRecord l opts with _ | _ | r0 <;> rw [hp] at h
    · rcases ih rs h r hr with ⟨l', hl', hok⟩
      exact ⟨l', List.mem_cons_of_mem l hl', hok⟩
    · exact absurd h (by simp)
    · rcases hrest : decodeLines opts ls with e | rs0 <;> rw [hrest] at h
      · exact absurd h (by simp)
      · injection h with h
        subst h
        rcases List.mem_cons.1 hr with h1 | h1
        · exact ⟨l, List.mem_cons_self l ls, h1 ▸ hp⟩
        · rcases ih rs0 hrest r h1 with ⟨l', hl', hok⟩
          exact ⟨l', List.mem_cons_of_mem l hl', hok⟩

theorem decodeLines_ok_no_tab {opts : Options} {lines : List (List Char)}
    {rs : List UCRecord} (h : decodeLines opts lines = .ok rs) :
    ∀ r ∈ rs, '\t' ∉ r.Query ∧ '\t' ∉ r.Target := by
  intro r hr
  rcases decodeLines_mem opts lines rs h r hr with ⟨l, _, hok⟩
  exact parse_ok_no_tab hok

/-! ## Distinct counts through the injective pair key -/

theorem dedup_length_map_injOn {α β : Type} [DecidableEq α] [DecidableEq β]
    (g : α → β) :
    ∀ l : List α, (∀ x ∈ l, ∀ y ∈ l, g x = g y → x = y) →
      ((l.map g).dedup).length = l.dedup.length := by
  intro l
  induction l with
  | nil => intro _; simp
  | cons a l ih =>
    intro hinj
    have hsub : ∀ x ∈ l, ∀ y ∈ l, g x = g y → x = y := fun x hx y hy =>
      hinj x (List.mem_cons_of_mem a hx) y (List.mem_cons_of_mem a hy)
    by_cases hmem : a ∈ l
    · rw [List.map_cons, List.dedup_cons_of_mem (List.mem_map_of_mem g hmem),
        List.dedup_cons_of_mem hmem]
      exact ih hsub
    · have hga : g a ∉ l.map g := by
        intro hga
        obtain ⟨x, hx, hgx⟩ := List.mem_map.1 hga
        have hxa : x = a :=
          hinj x (List.mem_cons_of_mem a hx) a (List.mem_cons_self a l) hgx
        exact hmem (hxa ▸ hx)
      rw [List.map_cons, List.dedup_cons_of_not_mem hga,
        List.dedup_cons_of_not_mem hmem]
      simp [ih hsub]

theorem pairKey_eq_keyOfPair_recPair (rs : List UCRecord) :
    rs.map pairKey = (rs.map recPair).map keyOfPair := by
  rw [List.map_map]
  rfl

theorem run_seen_length_init (opts : Options) (hd : opts.removeDups = true)
    (rs : List UCRecord)
    (htf : ∀ r ∈ rs, '\t' ∉ r.Query ∧ '\t' ∉ r.Target) :
    (runRecords opts rs initTextState).seenPairs.length =
      ((rs.map recPair).dedup).length := by
  have hnd : (runRecords opts rs initTextState).seenPairs.Nodup :=
    run_seen_nodup opts hd rs initTextState (by simp [initTextState])
  have hmem : ∀ k, k ∈ (runRecords opts rs initTextState).seenPairs ↔
      k ∈ rs.map pairKey := by
    intro k
    rw [run_seen_mem opts hd rs initTextState k]
    simp [initTextState]
  have hperm : (runRecords opts rs initTextState).seenPairs.Perm
      ((rs.map pairKey).dedup) :=
    (List.perm_ext_iff_of_nodup hnd (List.nodup_dedup _)).2
      (fun k => by rw [hmem k, List.mem_dedup])
  rw [hperm.length_eq, pairKey_eq_keyOfPair_recPair]
  refine dedup_length_map_injOn keyOfPair (rs.map recPair) ?_
  intro x hx y hy hxy
  obtain ⟨rx, hrx, hrxe⟩ := List.mem_map.1 hx
  obtain ⟨ry, hry, hrye⟩ := List.mem_map.1 hy
  obtain ⟨h1, h2⟩ := keyOfPair_inj
    (by rw [← hrxe]; exact (htf rx hrx).1)
    (by rw [← hrye]; exact (htf ry hry).1) hxy
  exact Prod.ext h1 h2

theorem key_mem_iff_pair_mem (rs : List UCRecord)
    (htf : ∀ r ∈ rs, '\t' ∉ r.Query ∧ '\t' ∉ r.Target)
    (p : List Char × List Char) (hp1 : '\t' ∉ p.1) :
    keyOfPair p ∈ rs.map pairKey ↔ p ∈ rs.map recPair := by
  constructor
  · intro h
    obtain ⟨r, hr, he⟩ := List.mem_map.1 h
    have he2 : keyOfPair (recPair r) = keyOfPair p := he
    obtain ⟨h1, h2⟩ := keyOfPair_inj (htf r hr).1 hp1 he2
    exact List.mem_map.2 ⟨r, hr, Prod.ext h1 h2⟩
  · intro h
    obtain ⟨r, hr, he⟩ := List.mem_map.1 h
    exact List.mem_map.2 ⟨r, hr, by rw [← he]; rfl⟩

/-! ## Claim C2: dedup exactness -/

/-- C2: with duplicate removal on and multi-target mode off, for any
input whose decoding yields the record (and thus (query, target) pair)
sequence `rs`, the emitted rows are exactly the loop's written records,
each distinct pair occurs in them exactly once, the duplicate count
equals total pairs processed minus distinct pairs, and the end-of-stream
report surfaces that count exactly when it is positive. -/
theorem C2_dedup_exactness (opts : Options) (lines : List (List Char))
    (rs : List UCRecord) (hd : opts.removeDups = true)
    (hm : opts.multiMapped = false)
    (hdec : decodeLines opts lines = .ok rs) :
    processAndWriteText opts lines =
      .ok ((runRecords opts rs initTextState).written.map recPair,
        dupReport (runRecords opts rs initTextState)) ∧
    (∀ p : List Char × List Char,
      ((runRecords opts rs initTextState).written.map recPair).count p =
        (if p ∈ rs.map recPair then 1 else 0)) ∧
    (runRecords opts rs initTextState).dupCount =
      rs.length - ((rs.map recPair).dedup).length ∧
    dupReport (runRecords opts rs initTextState) =
      (if 0 < (runRecords opts rs initTextState).dupCount
       then some (runRecords opts rs initTextState).dupCount else none) := by
  have htf := decodeLines_ok_no_tab hdec
  refine ⟨?_, ?_, ?_, rfl⟩
  · unfold processAndWriteText outputPairs
    rw [hdec]
    simp [hm]
  · intro p
    by_cases hp : '\t' ∉ p.1 ∧ '\t' ∉ p.2
    · rw [run_written_count opts hd hm rs initTextState htf
        (by intro p2 h1 h2; simp [initTextState]) p hp.1 hp.2]
      have hiff : keyOfPair p ∈ (runRecords opts rs initTextState).seenPairs ↔
          p ∈ rs.map recPair := by
        rw [run_seen_mem opts hd rs initTextState (keyOfPair p)]
        simp only [initTextState, List.not_mem_nil, false_or]
        exact key_mem_iff_pair_mem rs htf p hp.1
      by_cases hin : p ∈ rs.map recPair
      · rw [if_pos (hiff.2 hin), if_pos hin]
      · rw [if_neg (fun hx => hin (hiff.1 hx)), if_neg hin]
    · have hnotin : p ∉ rs.map recPair := by
        intro hin
        obtain ⟨r, hr, he⟩ := List.mem_map.1 hin
        have := htf r hr
        rw [← he] at hp
        exact hp ⟨this.1, this.2⟩
      rw [if_neg hnotin]
      refine List.count_eq_zero.2 ?_
      intro hin
      obtain ⟨r, hr, he⟩ := List.mem_map.1 hin
      rcases run_written_mem opts rs initTextState r hr with h1 | h1
      · exact absurd h1 (List.not_mem_nil r)
      · have := htf r h1
        rw [← he] at hp
        exact hp ⟨this.1, this.2⟩
  · have h1 := run_dup_seen opts hd rs initTextState
    have h2 := run_seen_length_init opts hd rs htf
    simp only [initTextState, List.length_nil] at h1 h2 ⊢
    omega

/-- Witness for C2 at spec example 3: two identical `H` lines and one
distinct line; the duplicated pair is emitted once and the duplicate
count is 1 = 3 − 2. -/
theorem C2_witness :
    processAndWriteText defaultOptions
      ["H\t0\t9\t97.0\t+\t*\t*\t9M\tq1\tt1".toList,
       "H\t0\t9\t97.0\t+\t*\t*\t9M\tq1\tt1".toList,
       "H\t0\t9\t97.0\t+\t*\t*\t9M\tq2\tt2".toList] =
      .ok ([("q1".toList, "t1".toList), ("q2".toList, "t2".toList)], some 1) ∧
    (((runRecords defaultOptions
        [{ RecordType := ['H'], ClusterNumber := 0, Size := 0,
           Identity := none, Strand := none, Unused1 := ['*'],
           Unused2 := ['*'], CIGAR := "9M".toList,
           Query := "q1".toList, Target := "t1".toList },
         { RecordType := ['H'], ClusterNumber := 0, Size := 0,
           Identity := none, Strand := none, Unused1 := ['*'],
           Unused2 := ['*'], CIGAR := "9M".toList,
           Query := "q1".toList, Target := "t1".toList },
         { RecordType := ['H'], ClusterNumber := 0, Size := 0,
           Identity := none, Strand := none, Unused1 := ['*'],
           Unused2 := ['*'], CIGAR := "9M".toList,
           Query := "q2".toList, Target := "t2".toList }]
        initTextState).written.map recPair).count ("q1".toList, "t1".toList) =
      1) := by
  have h := C2_dedup_exactness defaultOptions
    ["H\t0\t9\t97.0\t+\t*\t*\t9M\tq1\tt1".toList,
     "H\t0\t9\t97.0\t+\t*\t*\t9M\tq1\tt1".toList,
     "H\t0\t9\t97.0\t+\t*\t*\t9M\tq2\tt2".toList]
    [{ RecordType := ['H'], ClusterNumber := 0, Size := 0,
       Identity := none, Strand := none, Unused1 := ['*'],
       Unused2 := ['*'], CIGAR := "9M".toList,
       Query := "q1".toList, Target := "t1".toList },
     { RecordType := ['H'], ClusterNumber := 0, Size := 0,
       Identity := none, Strand := none, Unused1 := ['*'],
       Unused2 := ['*'], CIGAR := "9M".toList,
       Query := "q1".toList, Target := "t1".toList },
     { RecordType := ['H'], ClusterNumber := 0, Size := 0,
       Identity := none, Strand := none, Unused1 := ['*'],
       Unused2 := ['*'], CIGAR := "9M".toList,
       Query := "q2".toList, Target := "t2".toList }]
    rfl rfl rfl
  refine ⟨?_, ?_⟩
  · rw [h.1]
    rfl
  · rw [h.2.1 ("q1".toList, "t1".toList)]
    decide

/-! ## The query→targets map -/

theorem qtLookup_qtInsert (m : List (List Char × List (List Char)))
    (q t q2 : List Char) :
    qtLookup (qtInsert m q t) q2 =
      (if q = q2 then
        (if t ∈ qtLookup m q then qtLookup m q else qtLookup m q ++ [t])
       else qtLookup m q2) := by
  induction m with
  | nil =>
    by_cases h : q = q2 <;> simp [qtInsert, qtLookup, h]
  | cons e m ih =>
    obtain ⟨q0, ts⟩ := e
    by_cases h0 : q0 = q
    · subst h0
      by_cases h2 : q0 = q2
      · subst h2
        simp [qtInsert, qtLookup]
      · simp [qtInsert, qtLookup, h2]
    · by_cases h2 : q0 = q2
      · subst h2
        have hne : ¬q = q0 := fun h => h0 h.symm
        simp [qtInsert, qtLookup, h0, hne]
      · simp [qtInsert, qtLookup, h0, h2, ih]

theorem qtKeys_qtInsert (m : List (List Char × List (List Char)))
    (q t : List Char) :
    qtKeys (qtInsert m q t) =
      (if q ∈ qtKeys m then qtKeys m else qtKeys m ++ [q]) := by
  induction m with
  | nil => simp [qtInsert, qtKeys]
  | cons e m ih =>
    obtain ⟨q0, ts⟩ := e
    simp only [qtKeys] at ih ⊢
    by_cases h0 : q0 = q
    · subst h0
      simp [qtInsert]
    · have hne : ¬q = q0 := fun h => h0 h.symm
      by_cases h2 : q ∈ m.map (fun e => e.1)
      · simp [qtInsert, h0, hne, h2, ih]
      · simp [qtInsert, h0, hne, h2, ih]

theorem qtInsert_sets_nodup (m : List (List Char × List (List Char)))
    (q t : List Char) (hsets : ∀ e ∈ m, e.2.Nodup) :
    ∀ e ∈ qtInsert m q t, e.2.Nodup := by
  induction m with
  | nil =>
    intro e he
    simp only [qtInsert, List.mem_singleton] at he
    subst he
    simp
  | cons e0 m ih =>
    obtain ⟨q0, ts⟩ := e0
    intro e he
    by_cases h0 : q0 = q
    · simp only [qtInsert, if_pos h0] at he
      rcases List.mem_cons.1 he with h1 | h1
      · subst h1
        have hts := hsets (q0, ts) (List.mem_cons_self _ _)
        by_cases h2 : t ∈ ts
        · simpa [h2] using hts
        · simp only [h2, if_false]
          simp [List.nodup_append, hts, h2]
      · exact hsets e (List.mem_cons_of_mem _ h1)
    · simp only [qtInsert, if_neg h0] at he
      rcases List.mem_cons.1 he with h1 | h1
      · subst h1
        exact hsets (q0, ts) (List.mem_cons_self _ _)
      · exact ih (fun e2 he2 => hsets e2 (List.mem_cons_of_mem _ he2)) e h1

theorem qtInsert_wf (m : List (List Char × List (List Char)))
    (q t : List Char) (hwf : QTWf m) : QTWf (qtInsert m q t) := by
  obtain ⟨hkeys, hsets⟩ := hwf
  refine ⟨?_, qtInsert_sets_nodup m q t hsets⟩
  rw [qtKeys_qtInsert]
  by_cases h : q ∈ qtKeys m
  · rw [if_pos h]
    exact hkeys
  · rw [if_neg h]
    simp [List.nodup_append, hkeys, h]

theorem QTWf_tail {e : List Char × List (List Char)}
    {m : List (List Char × List (List Char))} (hwf : QTWf (e :: m)) :
    QTWf m ∧ e.1 ∉ qtKeys m ∧ e.2.Nodup := by
  obtain ⟨hkeys, hsets⟩ := hwf
  simp only [qtKeys, List.map_cons, List.nodup_cons] at hkeys
  exact ⟨⟨hkeys.2, fun e2 he2 => hsets e2 (List.mem_cons_of_mem _ he2)⟩,
    hkeys.1, hsets e (List.mem_cons_self _ _)⟩

theorem qtLookup_nodup (m : List (List Char × List (List Char)))
    (hwf : QTWf m) (q : List Char) : (qtLookup m q).Nodup := by
  induction m with
  | nil => simp [qtLookup]
  | cons e m ih =>
    obtain ⟨q0, ts⟩ := e
    simp only [qtLookup]
    by_cases h : q0 = q
    · rw [if_pos h]
      exact (QTWf_tail hwf).2.2
    · rw [if_neg h]
      exact ih (QTWf_tail hwf).1

theorem multiOut_fst_mem (m : List (List Char × List (List Char)))
    {p : List Char × List Char} (h : p ∈ multiOut m) : p.1 ∈ qtKeys m := by
  unfold multiOut at h
  obtain ⟨e, he, hp⟩ := List.mem_flatMap.1 h
  obtain ⟨t, _, hpe⟩ := List.mem_map.1 hp
  rw [← hpe]
  exact List.mem_map.2 ⟨e, (List.mem_filter.1 he).1, rfl⟩

theorem count_nodup {α : Type} [BEq α] [LawfulBEq α] {l : List α}
    (h : l.Nodup) (a : α) : l.count a = (if a ∈ l then 1 else 0) := by
  induction l with
  | nil => simp
  | cons b l ih =>
    rcases List.nodup_cons.1 h with ⟨hb, hl⟩
    by_cases hab : a = b
    · subst hab
      simp [List.count_cons, List.count_eq_zero.2 hb]
    · simp [List.count_cons, hab, ih hl, List.mem_cons]

theorem multiOut_count (m : List (List Char × List (List Char)))
    (hwf : QTWf m) (q t : List Char) :
    (multiOut m).count (q, t) =
      (if 1 < (qtLookup m q).length ∧ t ∈ qtLookup m q then 1 else 0) := by
  induction m with
  | nil => simp [multiOut, qtLookup]
  | cons e m ih =>
    obtain ⟨q0, ts⟩ := e
    obtain ⟨hwfm, hq0, hts0⟩ := QTWf_tail hwf
    have hts : ts.Nodup := hts0
    have hkey : q0 ∉ qtKeys m := hq0
    have hmo : multiOut ((q0, ts) :: m) =
        (if 1 < ts.length then ts.map (fun x => (q0, x)) else []) ++
          multiOut m := by
      unfold multiOut
      by_cases h1 : 1 < ts.length
      · rw [List.filter_cons_of_pos (by simpa using h1), List.flatMap_cons,
          if_pos h1]
      · rw [List.filter_cons_of_neg (by simpa using h1), if_neg h1,
          List.nil_append]
    rw [hmo, List.count_append]
    have hinj : Function.Injective (fun x : List Char => (q0, x)) :=
      fun a b h => congrArg Prod.snd h
    have hmemiff : ((q0, t) ∈ ts.map (fun x => (q0, x))) ↔ t ∈ ts := by
      constructor
      · intro h
        obtain ⟨x, hx, he⟩ := List.mem_map.1 h
        have hxt : x = t := congrArg Prod.snd he
        exact hxt ▸ hx
      · intro h
        exact List.mem_map.2 ⟨t, h, rfl⟩
    by_cases hq : q0 = q
    · subst hq
      have hlq : qtLookup ((q0, ts) :: m) q0 = ts := by simp [qtLookup]
      rw [hlq]
      have htail : (multiOut m).count (q0, t) = 0 := by
        refine List.count_eq_zero.2 ?_
        intro hmem
        exact hkey (multiOut_fst_mem m hmem)
      rw [htail, Nat.add_zero]
      by_cases h1 : 1 < ts.length
      · rw [if_pos h1, count_nodup (hts.map hinj)]
        by_cases h2 : t ∈ ts
        · rw [if_pos (hmemiff.2 h2), if_pos ⟨h1, h2⟩]
        · rw [if_neg (fun hc => h2 (hmemiff.1 hc)),
            if_neg (fun hc => h2 hc.2)]
      · rw [if_neg h1, if_neg (fun hc => h1 hc.1)]
        simp
    · have hlq : qtLookup ((q0, ts) :: m) q = qtLookup m q := by
        simp [qtLookup, hq]
      rw [hlq]
      have hhead :
          (if 1 < ts.length then ts.map (fun x => (q0, x)) else []).count
            (q, t) = 0 := by
        refine List.count_eq_zero.2 ?_
        intro hmem
        split at hmem
        · obtain ⟨x, _, hx⟩ := List.mem_map.1 hmem
          exact hq (congrArg Prod.fst hx)
        · exact absurd hmem (List.not_mem_nil _)
      rw [hhead, ih hwfm]
      simp

/-! ## Multi-target mode: loop lemmas -/

theorem stepRecord_map_cases (opts : Options) (st : TextState)
    (r : UCRecord) :
    (stepRecord opts st r).queryToTargets = st.queryToTargets ∨
    (stepRecord opts st r).queryToTargets =
      qtInsert st.queryToTargets r.Query r.Target := by
  unfold stepRecord
  by_cases h1 : opts.removeDups = true ∧ pairKey r ∈ st.seenPairs
  · rw [if_pos h1]
    exact Or.inl rfl
  · rw [if_neg h1]
    by_cases h2 : opts.removeDups = true
    · rw [if_pos h2]
      by_cases h3 : opts.multiMapped = true
      · rw [if_pos h3]
        exact Or.inr rfl
      · rw [if_neg h3]
        exact Or.inl rfl
    · rw [if_neg h2]
      by_cases h3 : opts.multiMapped = true
      · rw [if_pos h3]
        exact Or.inr rfl
      · rw [if_neg h3]
        exact Or.inl rfl

theorem run_qtwf (opts : Options) :
    ∀ (rs : List UCRecord) (st : TextState),
      QTWf st.queryToTargets →
      QTWf (runRecords opts rs st).queryToTargets := by
  intro rs
  induction rs with
  | nil =>
    intro st h
    simpa [runRecords] using h
  | cons r rs ih =>
    intro st h
    simp only [runRecords]
    refine ih _ ?_
    rcases stepRecord_map_cases opts st r with h1 | h1 <;> rw [h1]
    · exact h
    · exact qtInsert_wf _ _ _ h

theorem stepRecord_mm (opts : Options) (st : TextState) (r : UCRecord)
    (hm : opts.multiMapped = true)
    (hno : ¬(opts.removeDups = true ∧ pairKey r ∈ st.seenPairs)) :
    (stepRecord opts st r).queryToTargets =
      qtInsert st.queryToTargets r.Query r.Target ∧
    (stepRecord opts st r).seenPairs =
      (if opts.removeDups = true then st.seenPairs ++ [pairKey r]
       else st.seenPairs) := by
  unfold stepRecord
  rw [if_neg hno]
  by_cases h2 : opts.removeDups = true
  · rw [if_pos h2, if_pos hm]
    exact ⟨rfl, by rw [if_pos h2]⟩
  · rw [if_neg h2, if_pos hm]
    exact ⟨rfl, by rw [if_neg h2]⟩

theorem run_mm_lookup (opts : Options) (hm : opts.multiMapped = true) :
    ∀ (rs : List UCRecord) (st : TextState),
      (∀ r ∈ rs, '\t' ∉ r.Query ∧ '\t' ∉ r.Target) →
      (opts.removeDups = true → SeenMapInv st) →
      ((opts.removeDups = true → SeenMapInv (runRecords opts rs st)) ∧
        ∀ q t : List Char,
          t ∈ qtLookup (runRecords opts rs st).queryToTargets q ↔
            t ∈ qtLookup st.queryToTargets q ∨ (q, t) ∈ rs.map recPair) := by
  intro rs
  induction rs with
  | nil =>
    intro st htf hinv
    simp only [runRecords]
    exact ⟨hinv, fun q t => by simp⟩
  | cons r rs ih =>
    intro st htf hinv
    simp only [runRecords]
    obtain ⟨hqr, htr⟩ := htf r (List.mem_cons_self r rs)
    have htf2 : ∀ x ∈ rs, '\t' ∉ x.Query ∧ '\t' ∉ x.Target :=
      fun x hx => htf x (List.mem_cons_of_mem r hx)
    by_cases hcase : opts.removeDups = true ∧ pairKey r ∈ st.seenPairs
    · have hst : stepRecord opts st r =
          { st with dupCount := st.dupCount + 1 } :=
        stepRecord_dup opts st r hcase.1 hcase.2
      have habs : r.Target ∈ qtLookup st.queryToTargets r.Query :=
        (hinv hcase.1 r.Query r.Target hqr htr).1 hcase.2
      have hinv2 : opts.removeDups = true →
          SeenMapInv (stepRecord opts st r) := by
        intro hd
        rw [hst]
        exact hinv hd
      obtain ⟨ih1, ih2⟩ := ih (stepRecord opts st r) htf2 hinv2
      refine ⟨ih1, fun q t => ?_⟩
      rw [ih2 q t, hst]
      simp only [List.map_cons, List.mem_cons]
      constructor
      · rintro (h | h)
        · exact Or.inl h
        · exact Or.inr (Or.inr h)
      · rintro (h | h | h)
        · exact Or.inl h
        · have h1 : q = r.Query := congrArg Prod.fst h
          have h2 : t = r.Target := congrArg Prod.snd h
          subst h1
          subst h2
          exact Or.inl habs
        · exact Or.inr h
    · obtain ⟨hmap, hseen⟩ := stepRecord_mm opts st r hm hcase
      have hinv2 : opts.removeDups = true →
          SeenMapInv (stepRecord opts st r) := by
        intro hd
        intro q t hq ht
        rw [hseen, if_pos hd, hmap]
        have hkey_iff : keyOfPair (q, t) = pairKey r ↔
            q = r.Query ∧ t = r.Target := by
          constructor
          · intro hk
            exact keyOfPair_inj hq hqr hk
          · rintro ⟨h1, h2⟩
            rw [h1, h2]
            rfl
        rw [List.mem_append, List.mem_singleton, hkey_iff,
          hinv hd q t hq ht, qtLookup_qtInsert]
        by_cases hqq : r.Query = q
        · rw [if_pos hqq]
          subst hqq
          by_cases hm2 : r.Target ∈ qtLookup st.queryToTargets r.Query
          · rw [if_pos hm2]
            constructor
            · rintro (h | ⟨h1, h2⟩)
              · exact h
              · rw [h2]
                exact hm2
            · exact Or.inl
          · rw [if_neg hm2, List.mem_append, List.mem_singleton]
            constructor
            · rintro (h | ⟨h1, h2⟩)
              · exact Or.inl h
              · exact Or.inr h2
            · rintro (h | h)
              · exact Or.inl h
              · exact Or.inr ⟨rfl, h⟩
        · rw [if_neg hqq]
          have hnot : ¬(q = r.Query ∧ t = r.Target) :=
            fun hc => hqq hc.1.symm
          tauto
      obtain ⟨ih1, ih2⟩ := ih (stepRecord opts st r) htf2 hinv2
      refine ⟨ih1, fun q t => ?_⟩
      rw [ih2 q t, hmap, qtLookup_qtInsert]
      simp only [List.map_cons, List.mem_cons]
      by_cases hqq : r.Query = q
      · rw [if_pos hqq]
        subst hqq
        have hpair_iff : ((r.Query, t) = recPair r) ↔ t = r.Target := by
          constructor
          · intro h
            exact congrArg Prod.snd h
          · intro h
            rw [h]
            rfl
        by_cases hm2 : r.Target ∈ qtLookup st.queryToTargets r.Query
        · rw [if_pos hm2]
          constructor
          · rintro (h | h)
            · exact Or.inl h
            · exact Or.inr (Or.inr h)
          · rintro (h | h | h)
            · exact Or.inl h
            · rw [hpair_iff.1 h]
              exact Or.inl hm2
            · exact Or.inr h
        · rw [if_neg hm2]
          constructor
          · rintro (h | h)
            · rcases List.mem_append.1 h with h2 | h2
              · exact Or.inl h2
              · rw [List.mem_singleton] at h2
                exact Or.inr (Or.inl (hpair_iff.2 h2))
            · exact Or.inr (Or.inr h)
          · rintro (h | h | h)
            · exact Or.inl (List.mem_append_left _ h)
            · exact Or.inl (List.mem_append_right _
                (List.mem_singleton.2 (hpair_iff.1 h)))
            · exact Or.inr h
      · rw [if_neg hqq]
        have hnot : ¬((q, t) = recPair r) :=
          fun hc => hqq (congrArg Prod.fst hc).symm
        tauto

theorem distinctTargets_mem (rs : List UCRecord) (q t : List Char) :
    t ∈ distinctTargets rs q ↔ (q, t) ∈ rs.map recPair := by
  unfold distinctTargets
  rw [List.mem_dedup]
  constructor
  · intro h
    obtain ⟨r, hr, he⟩ := List.mem_map.1 h
    obtain ⟨hr2, hq2⟩ := List.mem_filter.1 hr
    have hq3 : r.Query = q := by simpa using hq2
    refine List.mem_map.2 ⟨r, hr2, ?_⟩
    rw [show recPair r = (r.Query, r.Target) from rfl, hq3, he]
  · intro h
    obtain ⟨r, hr, he⟩ := List.mem_map.1 h
    have h1 : r.Query = q := congrArg Prod.fst he
    have h2 : r.Target = t := congrArg Prod.snd he
    refine List.mem_map.2 ⟨r, List.mem_filter.2 ⟨hr, by simp [h1]⟩, h2⟩

/-! ## Claim C3: multi-target completeness -/

/-- C3: in multi-target mode, for any input whose decoding yields the
record sequence `rs`, the emitted rows are exactly the buffered
multi-target rows; a (query, target) pair is emitted exactly once iff
the query's set of distinct post-dedup effective targets has at least
two elements and the pair occurred, and a query appears in the output
iff its distinct-target set has at least two elements (queries with
exactly one distinct target are dropped entirely). -/
theorem C3_multi_target_completeness (opts : Options)
    (lines : List (List Char)) (rs : List UCRecord)
    (hm : opts.multiMapped = true)
    (hdec : decodeLines opts lines = .ok rs) :
    processAndWriteText opts lines =
      .ok (multiOut (runRecords opts rs initTextState).queryToTargets,
        dupReport (runRecords opts rs initTextState)) ∧
    (∀ q t : List Char,
      (multiOut (runRecords opts rs initTextState).queryToTargets).count
          (q, t) =
        (if 2 ≤ (distinctTargets rs q).length ∧ (q, t) ∈ rs.map recPair
         then 1 else 0)) ∧
    (∀ q : List Char,
      (∃ t, (q, t) ∈
          multiOut (runRecords opts rs initTextState).queryToTargets) ↔
        2 ≤ (distinctTargets rs q).length) := by
  have htf := decodeLines_ok_no_tab hdec
  have hwfM : QTWf (runRecords opts rs initTextState).queryToTargets := by
    refine run_qtwf opts rs initTextState ?_
    constructor
    · simp [initTextState, qtKeys]
    · intro e he
      simp [initTextState] at he
  have hinv0 : opts.removeDups = true → SeenMapInv initTextState := by
    intro _
    intro q t _ _
    simp [initTextState, qtLookup]
  have hlk : ∀ q t : List Char,
      t ∈ qtLookup (runRecords opts rs initTextState).queryToTargets q ↔
        (q, t) ∈ rs.map recPair := by
    intro q t
    rw [(run_mm_lookup opts hm rs initTextState htf hinv0).2 q t]
    simp [initTextState, qtLookup]
  have hlen : ∀ q : List Char,
      (qtLookup (runRecords opts rs initTextState).queryToTargets q).length =
        (distinctTargets rs q).length := by
    intro q
    have hnd : (distinctTargets rs q).Nodup := by
      unfold distinctTargets
      exact List.nodup_dedup _
    refine ((List.perm_ext_iff_of_nodup (qtLookup_nodup _ hwfM q) hnd).2
      (fun t => ?_)).length_eq
    rw [hlk q t]
    exact (distinctTargets_mem rs q t).symm
  refine ⟨?_, ?_, ?_⟩
  · unfold processAndWriteText outputPairs
    rw [hdec]
    simp [hm]
  · intro q t
    rw [multiOut_count _ hwfM q t]
    have hcond : (1 < (qtLookup
          (runRecords opts rs initTextState).queryToTargets q).length ∧
        t ∈ qtLookup (runRecords opts rs initTextState).queryToTargets q) ↔
        (2 ≤ (distinctTargets rs q).length ∧ (q, t) ∈ rs.map recPair) := by
      rw [hlen q, hlk q t]
      exact and_congr_left' (by omega)
    rw [if_congr hcond rfl rfl]
  · intro q
    constructor
    · rintro ⟨t, ht⟩
      have hcnt := multiOut_count _ hwfM q t
      by_cases hc : 1 < (qtLookup
          (runRecords opts rs initTextState).queryToTargets q).length ∧
          t ∈ qtLookup (runRecords opts rs initTextState).queryToTargets q
      · rw [← hlen q]
        exact hc.1
      · rw [if_neg hc] at hcnt
        exact absurd ht (List.count_eq_zero.1 hcnt)
    · intro h2
      have hlenq : 1 < (qtLookup
          (runRecords opts rs initTextState).queryToTargets q).length := by
        rw [hlen q]
        exact h2
      have hne : qtLookup (runRecords opts rs initTextState).queryToTargets q ≠
          [] := by
        intro h0
        rw [h0] at hlenq
        simp at hlenq
      obtain ⟨t, ht⟩ := List.exists_mem_of_ne_nil _ hne
      refine ⟨t, ?_⟩
      have hcnt := multiOut_count _ hwfM q t
      rw [if_pos ⟨hlenq, ht⟩] at hcnt
      by_contra hnm
      rw [List.count_eq_zero.2 hnm] at hcnt
      exact absurd hcnt (by simp)

/-- Witness for C3 at spec example 4: query `q2` maps to two distinct
targets and is emitted (both pairs once); query `q3` has a single
target and is dropped. -/
theorem C3_witness :
    processAndWriteText { defaultOptions with multiMapped := true }
      ["H\t0\t9\t97.0\t+\t*\t*\t9M\tq2\tt1".toList,
       "H\t0\t9\t97.0\t+\t*\t*\t9M\tq2\tt2".toList,
       "H\t0\t9\t97.0\t+\t*\t*\t9M\tq3\tt1".toList] =
      .ok ([("q2".toList, "t1".toList), ("q2".toList, "t2".toList)], none) ∧
    ((∃ t, ("q2".toList, t) ∈
        multiOut (runRecords { defaultOptions with multiMapped := true }
          [{ RecordType := ['H'], ClusterNumber := 0, Size := 0,
             Identity := none, Strand := none, Unused1 := ['*'],
             Unused2 := ['*'], CIGAR := "9M".toList,
             Query := "q2".toList, Target := "t1".toList },
           { RecordType := ['H'], ClusterNumber := 0, Size := 0,
             Identity := none, Strand := none, Unused1 := ['*'],
             Unused2 := ['*'], CIGAR := "9M".toList,
             Query := "q2".toList, Target := "t2".toList },
           { RecordType := ['H'], ClusterNumber := 0, Size := 0,
             Identity := none, Strand := none, Unused1 := ['*'],
             Unused2 := ['*'], CIGAR := "9M".toList,
             Query := "q3".toList, Target := "t1".toList }]
          initTextState).queryToTargets) ↔
      2 ≤ (distinctTargets
        [{ RecordType := ['H'], ClusterNumber := 0, Size := 0,
           Identity := none, Strand := none, Unused1 := ['*'],
           Unused2 := ['*'], CIGAR := "9M".toList,
           Query := "q2".toList, Target := "t1".toList },
         { RecordType := ['H'], ClusterNumber := 0, Size := 0,
           Identity := none, Strand := none, Unused1 := ['*'],
           Unused2 := ['*'], CIGAR := "9M".toList,
           Query := "q2".toList, Target := "t2".toList },
         { RecordType := ['H'], ClusterNumber := 0, Size := 0,
           Identity := none, Strand := none, Unused1 := ['*'],
           Unused2 := ['*'], CIGAR := "9M".toList,
           Query := "q3".toList, Target := "t1".toList }]
        ("q2".toList)).length) := by
  have h := C3_multi_target_completeness
    { defaultOptions with multiMapped := true }
    ["H\t0\t9\t97.0\t+\t*\t*\t9M\tq2\tt1".toList,
     "H\t0\t9\t97.0\t+\t*\t*\t9M\tq2\tt2".toList,
     "H\t0\t9\t97.0\t+\t*\t*\t9M\tq3\tt1".toList]
    [{ RecordType := ['H'], ClusterNumber := 0, Size := 0,
       Identity := none, Strand := none, Unused1 := ['*'],
       Unused2 := ['*'], CIGAR := "9M".toList,
       Query := "q2".toList, Target := "t1".toList },
     { RecordType := ['H'], ClusterNumber := 0, Size := 0,
       Identity := none, Strand := none, Unused1 := ['*'],
       Unused2 := ['*'], CIGAR := "9M".toList,
       Query := "q2".toList, Target := "t2".toList },
     { RecordType := ['H'], ClusterNumber := 0, Size := 0,
       Identity := none, Strand := none, Unused1 := ['*'],
       Unused2 := ['*'], CIGAR := "9M".toList,
       Query := "q3".toList, Target := "t1".toList }]
    rfl rfl
  refine ⟨?_, h.2.2 ("q2".toList)⟩
  rw [h.1]
  rfl
